import Mathlib

/-!
Verification of the `pythonic-fp-circulararray` library: a shallow embedding
of the two circular-array classes (`CA` in `auto.py`, `CAF` in `fixed.py`)
and proofs of the specification claims about them.

Modelling conventions:

- Python runtime values are modelled as `Option α`; `none` plays the role of
  the Python value `None`.  This is deliberate: the source stores `None` in
  unused slots and also allows `None` as an ordinary element, with no way to
  tell the two apart by looking at a slot (the bookkeeping fields
  `_front`/`_rear`/`_cnt` decide which slots are live).  The model reproduces
  that conflation exactly.
- Both classes have the identical slot layout
  (`_data`, `_cnt`, `_cap`, `_front`, `_rear`), so one record type `CA` is
  used for both; the fixed-capacity class's operations live in the
  namespace `CAF` over the abbreviation `CAF α`.
- Methods that raise return `Except String` results paired with the state the
  Python object is left in (the source raises before mutating, so the state
  component is the unchanged receiver on the error path).
- Python's `(x - 1) % cap` on a nonnegative `x` below `cap` is written
  `(x + cap - 1) % cap`, the same residue expressed without negative numbers.
- Python tuple assignment evaluates the whole right-hand side first and then
  assigns targets left to right; the definitions reproduce the resulting
  read/write order (e.g. a push writes at the updated index, a pop clears at
  the old one).
-/

namespace CircularArray

/-- The slot-array record shared by both classes: `data` is the slot array of
length `cap`, `cnt` the number of live elements, `front`/`rear` the physical
indices of the logically first/last live element. -/
structure CA (α : Type) where
  data : List (Option α)
  cnt : Nat
  cap : Nat
  front : Nat
  rear : Nat
deriving DecidableEq

/-- The fixed-capacity class `CAF` has the identical slot layout. -/
abbrev CAF (α : Type) := CA α

namespace CA

/-- CA.__init__: `[None] + list(data) + [None]`, capacity the resulting
length, count that minus two, and front/rear placed per the two cases.
`CA(None)` coincides with `CA([])`. -/
def fromList (ds : List (Option α)) : CA α :=
  let dat : List (Option α) := [none] ++ ds ++ [none]
  let cap := dat.length
  if cap = 2 then ⟨dat, cap - 2, cap, 0, 1⟩ else ⟨dat, cap - 2, cap, 1, cap - 2⟩

/-- CA._double_storage_capacity. -/
def doubleStorageCapacity (c : CA α) : CA α :=
  if c.front ≤ c.rear then
    { c with data := c.data ++ List.replicate c.cap none, cap := c.cap * 2 }
  else
    { c with
      data := c.data.take c.front ++ List.replicate c.cap none ++ c.data.drop c.front,
      front := c.front + c.cap,
      cap := 2 * c.cap }

/-- CA._compact_storage_capacity. -/
def compactStorageCapacity (c : CA α) : CA α :=
  match c.cnt with
  | 0 => ⟨[none, none], 0, 2, 0, 1⟩
  | 1 => ⟨[none, c.data.getD c.front none, none], 1, 3, 1, 1⟩
  | _ =>
    if c.front ≤ c.rear then
      ⟨[none] ++ (c.data.drop c.front).take (c.rear + 1 - c.front) ++ [none],
       c.cnt, c.cnt + 2, 1, c.cnt⟩
    else
      ⟨[none] ++ c.data.drop c.front ++ c.data.take (c.rear + 1) ++ [none],
       c.cnt, c.cnt + 2, 1, c.cnt⟩

/-- One iteration of the loop in CA.pushl: grow when full, step `front` back
one slot, write the value there, bump the count. -/
def pushl1 (c : CA α) (d : Option α) : CA α :=
  let c1 := if c.cnt = c.cap then doubleStorageCapacity c else c
  let f := (c1.front + c1.cap - 1) % c1.cap
  { c1 with front := f, data := c1.data.set f d, cnt := c1.cnt + 1 }

/-- One iteration of the loop in CA.pushr: grow when full, step `rear`
forward one slot, write the value there, bump the count. -/
def pushr1 (c : CA α) (d : Option α) : CA α :=
  let c1 := if c.cnt = c.cap then doubleStorageCapacity c else c
  let r := (c1.rear + 1) % c1.cap
  { c1 with rear := r, data := c1.data.set r d, cnt := c1.cnt + 1 }

/-- CA.popl: error on empty; on a singleton reset to the canonical empty
state; otherwise clear the front slot and advance `front`. -/
def popl (c : CA α) : Except String (Option α) × CA α :=
  if 1 < c.cnt then
    (.ok (c.data.getD c.front none),
     { c with data := c.data.set c.front none,
              front := (c.front + 1) % c.cap, cnt := c.cnt - 1 })
  else if c.cnt = 1 then
    (.ok (c.data.getD c.front none),
     { c with data := c.data.set c.front none, cnt := 0, front := 0, rear := c.cap - 1 })
  else
    (.error "Method popl called on an empty CA", c)

/-- CA.popr: mirror of `popl` (the singleton branch clears the front slot,
exactly as the source does). -/
def popr (c : CA α) : Except String (Option α) × CA α :=
  if 1 < c.cnt then
    (.ok (c.data.getD c.rear none),
     { c with data := c.data.set c.rear none,
              rear := (c.rear + c.cap - 1) % c.cap, cnt := c.cnt - 1 })
  else if c.cnt = 1 then
    (.ok (c.data.getD c.front none),
     { c with data := c.data.set c.front none, cnt := 0, front := 0, rear := c.cap - 1 })
  else
    (.error "Method popr called on an empty CA", c)

/-- CA.popld: popl with a default recovering the empty error. -/
def popld (c : CA α) (default : Option α) : Option α × CA α :=
  match popl c with
  | (.ok d, c1) => (d, c1)
  | (.error _, c1) => (default, c1)

/-- CA.poprd: popr with a default recovering the empty error. -/
def poprd (c : CA α) (default : Option α) : Option α × CA α :=
  match popr c with
  | (.ok d, c1) => (d, c1)
  | (.error _, c1) => (default, c1)

/-- The while-loop of CA.poplt, with the remaining iteration count as fuel. -/
def popltAux : CA α → Nat → List (Option α) × CA α
  | c, 0 => ([], c)
  | c, n + 1 =>
    match popl c with
    | (.error _, c1) => ([], c1)
    | (.ok d, c1) =>
      let p := popltAux c1 n
      (d :: p.1, p.2)

/-- CA.poplt: pop up to `maximum` items from the left (no-op when
`maximum <= 0`, since the while condition fails immediately). -/
def poplt (c : CA α) (maximum : Int) : List (Option α) × CA α :=
  popltAux c maximum.toNat

/-- The while-loop of CA.poprt. -/
def poprtAux : CA α → Nat → List (Option α) × CA α
  | c, 0 => ([], c)
  | c, n + 1 =>
    match popr c with
    | (.error _, c1) => ([], c1)
    | (.ok d, c1) =>
      let p := poprtAux c1 n
      (d :: p.1, p.2)

/-- CA.poprt. -/
def poprt (c : CA α) (maximum : Int) : List (Option α) × CA α :=
  poprtAux c maximum.toNat

/-- The for-loop of CA.rotl: `n` rounds of pop-left-then-push-right; a pop
failure would propagate as in Python (it cannot occur since the loop is only
entered with at least two elements). -/
def rotlAux : CA α → Nat → Except String Unit × CA α
  | c, 0 => (.ok (), c)
  | c, n + 1 =>
    match popl c with
    | (.error e, c1) => (.error e, c1)
    | (.ok d, c1) => rotlAux (pushr1 c1 d) n

/-- CA.rotl. -/
def rotl (c : CA α) (n : Int) : Except String Unit × CA α :=
  if c.cnt < 2 then (.ok (), c) else rotlAux c n.toNat

/-- The for-loop of CA.rotr. -/
def rotrAux : CA α → Nat → Except String Unit × CA α
  | c, 0 => (.ok (), c)
  | c, n + 1 =>
    match popr c with
    | (.error e, c1) => (.error e, c1)
    | (.ok d, c1) => rotrAux (pushl1 c1 d) n

/-- CA.rotr. -/
def rotr (c : CA α) (n : Int) : Except String Unit × CA α :=
  if c.cnt < 2 then (.ok (), c) else rotrAux c n.toNat

/-- The out-of-bounds message built by CA.__getitem__. -/
def getOobMsg (idx : Int) (cnt : Nat) : String :=
  "Out of bounds: index = " ++ toString idx ++ " not between " ++
    toString (-(cnt : Int)) ++ " and " ++ toString ((cnt : Int) - 1) ++
    " while getting value from a CA."

/-- CA.__getitem__ on an int index. -/
def getItem (c : CA α) (idx : Int) : Except String (Option α) :=
  if 0 ≤ idx ∧ idx < (c.cnt : Int) then
    .ok (c.data.getD ((c.front + idx.toNat) % c.cap) none)
  else if -(c.cnt : Int) ≤ idx ∧ idx < 0 then
    .ok (c.data.getD (((c.front + c.cnt : Int) + idx).toNat % c.cap) none)
  else if c.cnt = 0 then
    .error "Trying to get a value from an empty CA."
  else
    .error (getOobMsg idx c.cnt)

/-- The out-of-bounds message built by CA.__setitem__. -/
def setOobMsg (idx : Int) (cnt : Nat) : String :=
  "Out of bounds: index = " ++ toString idx ++ " not between " ++
    toString (-(cnt : Int)) ++ " and " ++ toString ((cnt : Int) - 1) ++
    " while setting value from a CA."

/-- CA.__setitem__ on an int index. -/
def setItem (c : CA α) (idx : Int) (v : Option α) : Except String Unit × CA α :=
  if 0 ≤ idx ∧ idx < (c.cnt : Int) then
    (.ok (), { c with data := c.data.set ((c.front + idx.toNat) % c.cap) v })
  else if -(c.cnt : Int) ≤ idx ∧ idx < 0 then
    (.ok (), { c with data := c.data.set (((c.front + c.cnt : Int) + idx).toNat % c.cap) v })
  else if c.cnt = 0 then
    (.error "Trying to index into an empty CA.", c)
  else
    (.error (setOobMsg idx c.cnt), c)

/-- The logical element sequence of the buffer, front to rear, via the index
translation `(front + i) mod cap`. -/
def toList (c : CA α) : List (Option α) :=
  (List.range c.cnt).map fun i => c.data.getD ((c.front + i) % c.cap) none

/-- The logical element at index `i` (the slot the translation rule yields). -/
def logGet (c : CA α) (i : Nat) : Option α :=
  c.data.getD ((c.front + i) % c.cap) none

/-- CA.__delitem__ on an int index: project to a plain list, delete, rebuild
through the constructor (a Python list raises IndexError outside bounds). -/
def delItem (c : CA α) (idx : Int) : Except String Unit × CA α :=
  if 0 ≤ idx ∧ idx < (c.cnt : Int) then
    (.ok (), fromList ((toList c).eraseIdx idx.toNat))
  else if -(c.cnt : Int) ≤ idx ∧ idx < 0 then
    (.ok (), fromList ((toList c).eraseIdx ((idx + c.cnt).toNat)))
  else
    (.error "list assignment index out of range", c)

/-- CA.__eq__ between two buffers of the same class: equal counts and
elementwise equal logical sequences.  The source's identity short-circuit
(`is` before `!=`) only skips a value comparison and is absorbed by value
equality here. -/
def caEq [DecidableEq α] (x y : CA α) : Bool :=
  if x.cnt ≠ y.cnt then false
  else (List.range x.cnt).all fun nn =>
    x.data.getD ((x.front + nn) % x.cap) none = y.data.getD ((y.front + nn) % y.cap) none

/-- CA.foldl.  `start = none` models both an absent argument and an explicit
Python `None` (they are the same call at runtime).  The no-start branch seeds
from `self[0]` and loops `self[idx]` for `idx` in `1..cnt-1`; the start
branch folds over the iteration sequence. -/
def foldl (c : CA α) (f : Option α → Option α → Option α) (start : Option α) :
    Except String (Option α) :=
  if c.cnt = 0 then
    if start.isNone then
      .error "Method foldl called on an empty CA without a start item."
    else
      .ok start
  else if start.isNone then
    .ok ((List.range (c.cnt - 1)).foldl
      (fun acc i => f acc (c.data.getD ((c.front + (i + 1)) % c.cap) none))
      (c.data.getD (c.front % c.cap) none))
  else
    .ok ((toList c).foldl f start)

/-- CA.foldr.  The no-start branch seeds from `self[-1]` (slot
`(front + cnt - 1) mod cap`) and loops `idx` from `cnt-2` down to `0`; the
start branch folds over the reversed iteration sequence. -/
def foldr (c : CA α) (f : Option α → Option α → Option α) (start : Option α) :
    Except String (Option α) :=
  if c.cnt = 0 then
    if start.isNone then
      .error "Method foldr called on empty CA without initial value."
    else
      .ok start
  else if start.isNone then
    .ok ((List.range (c.cnt - 1)).foldr
      (fun i acc => f (c.data.getD ((c.front + i) % c.cap) none) acc)
      (c.data.getD ((c.front + (c.cnt - 1)) % c.cap) none))
  else
    .ok ((toList c).foldr f start)

/-- CA.empty: clear all slots, keep the capacity, reset to the canonical
empty state. -/
def emptyOp (c : CA α) : CA α :=
  ⟨List.replicate c.cap none, 0, c.cap, 0, c.cap - 1⟩

/-- CA.resize: compact, then pad with trailing empty slots when the requested
minimum exceeds the compacted capacity (re-pointing `rear` when empty). -/
def resize (c : CA α) (minimumCapacity : Nat) : CA α :=
  let c1 := compactStorageCapacity c
  if minimumCapacity > c1.cap then
    let c2 := { c1 with cap := minimumCapacity,
                        data := c1.data ++ List.replicate (minimumCapacity - c1.cap) none }
    if c2.cnt = 0 then { c2 with front := 0, rear := c2.cap - 1 } else c2
  else c1

/-- CA.map: rebuild through the constructor from the mapped iteration
sequence. -/
def mapCA (c : CA α) (f : Option α → Option β) : CA β :=
  fromList ((toList c).map f)

end CA

namespace CAF

/-- CAF.__init__: capacity raised to at least 2 and to at least the element
count, slots padded with `None`.  `CAF(None, capacity)` coincides with
`CAF([], capacity)`. -/
def fromList (ds : List (Option α)) (capacity : Nat) : CAF α :=
  let cap1 := max 2 capacity
  let count := ds.length
  let cap2 := max count cap1
  let dat := ds ++ List.replicate (cap2 - count) (none : Option α)
  if count = 0 then ⟨dat, 0, cap2, 0, cap2 - 1⟩ else ⟨dat, count, cap2, 0, count - 1⟩

/-- CAF.pushl: raise on a full buffer (before touching any state), otherwise
step `front` back one slot, write, bump the count. -/
def pushl (c : CAF α) (d : Option α) : Except String Unit × CAF α :=
  if c.cnt = c.cap then
    (.error "Method pushl called on a full CAF", c)
  else
    let f := (c.front + c.cap - 1) % c.cap
    (.ok (), { c with front := f, data := c.data.set f d, cnt := c.cnt + 1 })

/-- CAF.pushr. -/
def pushr (c : CAF α) (d : Option α) : Except String Unit × CAF α :=
  if c.cnt = c.cap then
    (.error "Method pushr called on a full CAF", c)
  else
    let r := (c.rear + 1) % c.cap
    (.ok (), { c with rear := r, data := c.data.set r d, cnt := c.cnt + 1 })

/-- CAF.popl (same body as CA.popl, different message). -/
def popl (c : CAF α) : Except String (Option α) × CAF α :=
  if 1 < c.cnt then
    (.ok (c.data.getD c.front none),
     { c with data := c.data.set c.front none,
              front := (c.front + 1) % c.cap, cnt := c.cnt - 1 })
  else if c.cnt = 1 then
    (.ok (c.data.getD c.front none),
     { c with data := c.data.set c.front none, cnt := 0, front := 0, rear := c.cap - 1 })
  else
    (.error "Method popl called on an empty CAF", c)

/-- CAF.popr (same body as CA.popr, different message). -/
def popr (c : CAF α) : Except String (Option α) × CAF α :=
  if 1 < c.cnt then
    (.ok (c.data.getD c.rear none),
     { c with data := c.data.set c.rear none,
              rear := (c.rear + c.cap - 1) % c.cap, cnt := c.cnt - 1 })
  else if c.cnt = 1 then
    (.ok (c.data.getD c.front none),
     { c with data := c.data.set c.front none, cnt := 0, front := 0, rear := c.cap - 1 })
  else
    (.error "Method popr called on an empty CAF", c)

/-- CAF.popld. -/
def popld (c : CAF α) (default : Option α) : Option α × CAF α :=
  match popl c with
  | (.ok d, c1) => (d, c1)
  | (.error _, c1) => (default, c1)

/-- CAF.poprd. -/
def poprd (c : CAF α) (default : Option α) : Option α × CAF α :=
  match popr c with
  | (.ok d, c1) => (d, c1)
  | (.error _, c1) => (default, c1)

/-- The while-loop of CAF.poplt. -/
def popltAux : CAF α → Nat → List (Option α) × CAF α
  | c, 0 => ([], c)
  | c, n + 1 =>
    match popl c with
    | (.error _, c1) => ([], c1)
    | (.ok d, c1) =>
      let p := popltAux c1 n
      (d :: p.1, p.2)

/-- CAF.poplt. -/
def poplt (c : CAF α) (maximum : Int) : List (Option α) × CAF α :=
  popltAux c maximum.toNat

/-- The while-loop of CAF.poprt. -/
def poprtAux : CAF α → Nat → List (Option α) × CAF α
  | c, 0 => ([], c)
  | c, n + 1 =>
    match popr c with
    | (.error _, c1) => ([], c1)
    | (.ok d, c1) =>
      let p := poprtAux c1 n
      (d :: p.1, p.2)

/-- CAF.poprt. -/
def poprt (c : CAF α) (maximum : Int) : List (Option α) × CAF α :=
  poprtAux c maximum.toNat

/-- The for-loop of CAF.rotl: pop left may raise through to the caller, and a
push on a full buffer may as well (rotation never meets either, since it is
entered with `2 <= cnt` and restores the count each round). -/
def rotlAux : CAF α → Nat → Except String Unit × CAF α
  | c, 0 => (.ok (), c)
  | c, n + 1 =>
    match popl c with
    | (.error e, c1) => (.error e, c1)
    | (.ok d, c1) =>
      match pushr c1 d with
      | (.error e, c2) => (.error e, c2)
      | (.ok _, c2) => rotlAux c2 n

/-- CAF.rotl. -/
def rotl (c : CAF α) (n : Int) : Except String Unit × CAF α :=
  if c.cnt < 2 then (.ok (), c) else rotlAux c n.toNat

/-- The for-loop of CAF.rotr. -/
def rotrAux : CAF α → Nat → Except String Unit × CAF α
  | c, 0 => (.ok (), c)
  | c, n + 1 =>
    match popr c with
    | (.error e, c1) => (.error e, c1)
    | (.ok d, c1) =>
      match pushl c1 d with
      | (.error e, c2) => (.error e, c2)
      | (.ok _, c2) => rotrAux c2 n

/-- CAF.rotr. -/
def rotr (c : CAF α) (n : Int) : Except String Unit × CAF α :=
  if c.cnt < 2 then (.ok (), c) else rotrAux c n.toNat

/-- The out-of-bounds message built by CAF.__getitem__. -/
def getOobMsg (idx : Int) (cnt : Nat) : String :=
  "Out of bounds: index = " ++ toString idx ++ " not between " ++
    toString (-(cnt : Int)) ++ " and " ++ toString ((cnt : Int) - 1) ++
    " while getting value from a CAF."

/-- CAF.__getitem__. -/
def getItem (c : CAF α) (idx : Int) : Except String (Option α) :=
  if 0 ≤ idx ∧ idx < (c.cnt : Int) then
    .ok (c.data.getD ((c.front + idx.toNat) % c.cap) none)
  else if -(c.cnt : Int) ≤ idx ∧ idx < 0 then
    .ok (c.data.getD (((c.front + c.cnt : Int) + idx).toNat % c.cap) none)
  else if c.cnt = 0 then
    .error "Trying to get a value from an empty CAF."
  else
    .error (getOobMsg idx c.cnt)

/-- The out-of-bounds message built by CAF.__setitem__. -/
def setOobMsg (idx : Int) (cnt : Nat) : String :=
  "Out of bounds: index = " ++ toString idx ++ " not between " ++
    toString (-(cnt : Int)) ++ " and " ++ toString ((cnt : Int) - 1) ++
    " while setting value from a CAF."

/-- CAF.__setitem__. -/
def setItem (c : CAF α) (idx : Int) (v : Option α) : Except String Unit × CAF α :=
  if 0 ≤ idx ∧ idx < (c.cnt : Int) then
    (.ok (), { c with data := c.data.set ((c.front + idx.toNat) % c.cap) v })
  else if -(c.cnt : Int) ≤ idx ∧ idx < 0 then
    (.ok (), { c with data := c.data.set (((c.front + c.cnt : Int) + idx).toNat % c.cap) v })
  else if c.cnt = 0 then
    (.error "Trying to index into an empty CAF.", c)
  else
    (.error (setOobMsg idx c.cnt), c)

/-- CAF.foldl (same body as CA.foldl, different message). -/
def foldl (c : CAF α) (f : Option α → Option α → Option α) (initial : Option α) :
    Except String (Option α) :=
  if c.cnt = 0 then
    if initial.isNone then
      .error "Method foldl called on an empty CAF without an initial value."
    else
      .ok initial
  else if initial.isNone then
    .ok ((List.range (c.cnt - 1)).foldl
      (fun acc i => f acc (c.data.getD ((c.front + (i + 1)) % c.cap) none))
      (c.data.getD (c.front % c.cap) none))
  else
    .ok ((CA.toList c).foldl f initial)

/-- CAF.foldr (same body as CA.foldr, different message). -/
def foldr (c : CAF α) (f : Option α → Option α → Option α) (initial : Option α) :
    Except String (Option α) :=
  if c.cnt = 0 then
    if initial.isNone then
      .error "Method foldr called on empty CAF without initial value."
    else
      .ok initial
  else if initial.isNone then
    .ok ((List.range (c.cnt - 1)).foldr
      (fun i acc => f (c.data.getD ((c.front + i) % c.cap) none) acc)
      (c.data.getD ((c.front + (c.cnt - 1)) % c.cap) none))
  else
    .ok ((CA.toList c).foldr f initial)

/-- CAF.empty. -/
def emptyOp (c : CAF α) : CAF α :=
  ⟨List.replicate c.cap none, 0, c.cap, 0, c.cap - 1⟩

/-- CAF.map: rebuild through the constructor with the same capacity. -/
def mapCAF (c : CAF α) (f : Option α → Option β) : CAF β :=
  fromList ((CA.toList c).map f) c.cap

end CAF

/-!
Iteration.  Both `__iter__` methods are Python generator functions with the
same body: nothing runs when the generator is created; the first advance
executes the body up to the first `yield`, which is when `capacity`, `rear`,
`position` and the copy of the slot array are read from the live buffer.
The state machine below has one state per suspension point: `unstarted`
(generator object exists, body not entered), `running` (suspended at a
`yield` inside or just after the loop, with the captured snapshot), and
`finished`.  Advancing in the `unstarted` state reads the live buffer;
advancing in the `running` state consults only the snapshot, exactly like
the generator.  `__reversed__` gets the mirror machine.
-/

/-- Generator states for the forward traversal of either class. -/
inductive IterGen (α : Type) where
  | unstarted
  | running (cap rear pos : Nat) (snap : List (Option α))
  | finished
deriving DecidableEq

/-- The loop body shared by every started forward step: yield the slot at
`pos`; stop after yielding the `rear` slot, else advance `pos` by one
modulo `cap`. -/
def iterRunStep (cap rear pos : Nat) (snap : List (Option α)) :
    Option α × IterGen α :=
  if pos = rear then (snap.getD pos none, .finished)
  else (snap.getD pos none, .running cap rear ((pos + 1) % cap) snap)

/-- Advance the forward generator once against the live buffer `live`
(consulted only from the `unstarted` state, where the body captures
`cap`, `rear`, the start position `front` and a copy of the slot array).
Returns `none` when the generator is exhausted. -/
def iterNext (live : CA α) : IterGen α → Option (Option α) × IterGen α
  | .unstarted =>
    if 0 < live.cnt then
      let s := iterRunStep live.cap live.rear live.front live.data
      (some s.1, s.2)
    else
      (none, .finished)
  | .running cap rear pos snap =>
    let s := iterRunStep cap rear pos snap
    (some s.1, s.2)
  | .finished => (none, .finished)

/-- Drain the forward generator: at step `k` the live buffer is `muts k`
(the caller may mutate the buffer arbitrarily between steps), the yielded
values are collected until exhaustion or until `fuel` runs out. -/
def drainMut (muts : Nat → CA α) (k : Nat) (g : IterGen α) : Nat → List (Option α)
  | 0 => []
  | fuel + 1 =>
    match iterNext (muts k) g with
    | (none, _) => []
    | (some v, g1) => v :: drainMut muts (k + 1) g1 fuel

/-- Generator states for the reverse traversal (`__reversed__`). -/
inductive RevGen (α : Type) where
  | unstarted
  | running (cap front pos : Nat) (snap : List (Option α))
  | finished
deriving DecidableEq

/-- The loop body of `__reversed__`: yield the slot at `pos`; stop after
yielding the `front` slot, else step `pos` back one slot modulo `cap`. -/
def revRunStep (cap front pos : Nat) (snap : List (Option α)) :
    Option α × RevGen α :=
  if pos = front then (snap.getD pos none, .finished)
  else (snap.getD pos none, .running cap front ((pos + cap - 1) % cap) snap)

/-- Advance the reverse generator once against the live buffer (capture
happens at the first advance, starting from `rear`). -/
def revNext (live : CA α) : RevGen α → Option (Option α) × RevGen α
  | .unstarted =>
    if 0 < live.cnt then
      let s := revRunStep live.cap live.front live.rear live.data
      (some s.1, s.2)
    else
      (none, .finished)
  | .running cap front pos snap =>
    let s := revRunStep cap front pos snap
    (some s.1, s.2)
  | .finished => (none, .finished)

/-- Drain the reverse generator against a mutating live buffer. -/
def drainRevMut (muts : Nat → CA α) (k : Nat) (g : RevGen α) : Nat → List (Option α)
  | 0 => []
  | fuel + 1 =>
    match revNext (muts k) g with
    | (none, _) => []
    | (some v, g1) => v :: drainRevMut muts (k + 1) g1 fuel

/-- The state invariant maintained by both classes: capacity at least 2, the
slot array exactly `cap` long, at most `cap` live elements, `front`/`rear`
in range, and `rear` determined by `front` and `cnt` (the canonical empty
state when `cnt = 0`). -/
abbrev Inv (c : CA α) : Prop :=
  2 ≤ c.cap ∧ c.data.length = c.cap ∧ c.cnt ≤ c.cap ∧ c.front < c.cap ∧ c.rear < c.cap ∧
    (if c.cnt = 0 then c.front = 0 ∧ c.rear = c.cap - 1
     else c.rear = (c.front + c.cnt - 1) % c.cap)

/-- The layout invariants exactly as the specification lists them: capacity
at least 2, count at most capacity, a singleton has `front = rear`, a
non-wrapped region is contiguous with `rear - front + 1 = cnt`, and a
wrapped region has `(cap - front) + (rear + 1) = cnt`. -/
abbrev ClaimInv (c : CA α) : Prop :=
  2 ≤ c.cap ∧ c.cnt ≤ c.cap ∧
    (c.cnt = 1 → c.front = c.rear) ∧
    (1 < c.cnt → c.front ≤ c.rear → c.rear + 1 - c.front = c.cnt) ∧
    (c.rear < c.front → c.cap - c.front + (c.rear + 1) = c.cnt)

/-- A Python object: an allocation identity paired with the buffer state.
Fresh allocations receive identities never used before, which is all the
model needs of `is`. -/
structure Obj (α : Type) where
  id : Nat
  st : CA α

/-- Evaluating `repr` of an auto-resizing buffer and parsing it back:
`repr` renders `ca(e1, ..., en)` over the iteration sequence, and evaluating
that expression calls `ca(*items)`, which is `CA(items)` — a freshly
allocated buffer built from the element list (element reprs are assumed to
round-trip, as in the repository's own tests). -/
def parseRepr (b : Obj α) (fresh : Nat) : Obj α :=
  ⟨fresh, CA.fromList (CA.toList b.st)⟩

/-- Evaluating `repr` of a fixed-capacity buffer and parsing it back:
`repr` renders `caf(e1, ..., en)` and evaluating it calls `caf(*ts)` with
the default `capacity = 2`, which is `CAF(ts, capacity=2)`. -/
def parseReprF (b : Obj α) (fresh : Nat) : Obj α :=
  ⟨fresh, CAF.fromList (CA.toList b.st) 2⟩

/-- Sample buffer for concrete instantiations: a full wrapped buffer
(front = 2 > rear = 1, count = capacity = 6), reached by constructing
`ca(1, 2, 3, 4)`, popping once on the left and pushing three times on the
right. -/
def wrappedFull : CA Nat :=
  CA.pushr1 (CA.pushr1 (CA.pushr1
    (CA.popl (CA.fromList [some 1, some 2, some 3, some 4])).2
    (some 5)) (some 6)) (some 7)

/-- Sample fixed-capacity buffer with spare room. -/
def fixedSample : CAF Nat := CAF.fromList [some 1, some 2] 4

/-- A mutation schedule for the iterator model: the live buffer at the first
generator step holds two elements; at every later step it is empty. -/
def mutsSample : Nat → CA Nat :=
  fun k => if k = 0 then CA.fromList [some 1, some 2] else CA.fromList []

/-! Helper lemmas about list access, modular arithmetic and the invariant. -/

theorem getD_set_self {β : Type} (l : List β) (i : Nat) (v d : β) (h : i < l.length) :
    (l.set i v).getD i d = v := by
  rw [List.getD_eq_getElem?_getD, List.getElem?_set_self h]
  rfl

theorem getD_set_ne {β : Type} (l : List β) (i j : Nat) (v d : β) (h : i ≠ j) :
    (l.set i v).getD j d = l.getD j d := by
  simp [List.getD_eq_getElem?_getD, List.getElem?_set_ne h]

theorem getD_append_left {β : Type} (l m : List β) (i : Nat) (d : β) (h : i < l.length) :
    (l ++ m).getD i d = l.getD i d := by
  simp [List.getD_eq_getElem?_getD, List.getElem?_append, h]

theorem getD_append_right {β : Type} (l m : List β) (i : Nat) (d : β) (h : l.length ≤ i) :
    (l ++ m).getD i d = m.getD (i - l.length) d := by
  simp [List.getD_eq_getElem?_getD, List.getElem?_append, Nat.not_lt.mpr h]

theorem getD_take {β : Type} (l : List β) (n i : Nat) (d : β) (h : i < n) :
    (l.take n).getD i d = l.getD i d := by
  simp [List.getD_eq_getElem?_getD, List.getElem?_take, h]

theorem getD_drop {β : Type} (l : List β) (n i : Nat) (d : β) :
    (l.drop n).getD i d = l.getD (n + i) d := by
  simp [List.getD_eq_getElem?_getD, List.getElem?_drop]

theorem getD_replicate {β : Type} (n i : Nat) (d0 d : β) (h : i < n) :
    (List.replicate n d0).getD i d = d0 := by
  simp [List.getD_eq_getElem?_getD, List.getElem?_replicate, h]

theorem getD_oob {β : Type} (l : List β) (i : Nat) (d : β) (h : l.length ≤ i) :
    l.getD i d = d := by
  simp [List.getD_eq_getElem?_getD, List.getElem?_eq_none h]

/-- Adding a constant and reducing mod `n` is injective on `[0, n)`. -/
theorem mod_shift_inj (f k j n : Nat) (hk : k < n) (hj : j < n)
    (h : (f + k) % n = (f + j) % n) : k = j := by
  have h1 : k ≡ j [MOD n] := Nat.ModEq.add_left_cancel' f h
  have h2 : k % n = j % n := h1
  rwa [Nat.mod_eq_of_lt hk, Nat.mod_eq_of_lt hj] at h2

theorem mod_big (x n : Nat) (h1 : n ≤ x) (h2 : x < 2 * n) : x % n = x - n := by
  rw [Nat.mod_eq_sub_mod h1, Nat.mod_eq_of_lt (by omega)]

/-- With at least one element, `rear` is `(front + cnt - 1) % cap`. -/
theorem inv_rear (c : CA α) (h : Inv c) (hpos : 0 < c.cnt) :
    c.rear = (c.front + c.cnt - 1) % c.cap := by
  have h6 := h.2.2.2.2.2
  rwa [if_neg (by omega)] at h6

/-- With no elements, the buffer is in the canonical empty state. -/
theorem inv_empty_canon (c : CA α) (h : Inv c) (h0 : c.cnt = 0) :
    c.front = 0 ∧ c.rear = c.cap - 1 := by
  have h6 := h.2.2.2.2.2
  rwa [if_pos h0] at h6

/-- Non-wrapped non-empty region: `rear = front + cnt - 1` with no reduction. -/
theorem inv_rear_nowrap (c : CA α) (h : Inv c) (hpos : 0 < c.cnt) (hle : c.front ≤ c.rear) :
    c.rear = c.front + c.cnt - 1 := by
  have hr := inv_rear c h hpos
  obtain ⟨hcap, hlen, hcnt, hfront, hrear, -⟩ := h
  rcases Nat.lt_or_ge (c.front + c.cnt - 1) c.cap with hlt | hge
  · rwa [Nat.mod_eq_of_lt hlt] at hr
  · rw [mod_big _ _ hge (by omega)] at hr
    omega

/-- Wrapped region: the count splits as `(cap - front) + (rear + 1)` and the
buffer is non-empty with `front >= 1`. -/
theorem inv_rear_wrap (c : CA α) (h : Inv c) (hw : c.rear < c.front) :
    0 < c.cnt ∧ c.rear + c.cap = c.front + c.cnt - 1 := by
  have hpos : 0 < c.cnt := by
    by_contra h0
    obtain ⟨hf0, -⟩ := inv_empty_canon c h (by omega)
    omega
  have hr := inv_rear c h hpos
  obtain ⟨hcap, hlen, hcnt, hfront, hrear, -⟩ := h
  refine ⟨hpos, ?_⟩
  rcases Nat.lt_or_ge (c.front + c.cnt - 1) c.cap with hlt | hge
  · rw [Nat.mod_eq_of_lt hlt] at hr
    omega
  · rw [mod_big _ _ hge (by omega)] at hr
    omega

/-- The invariant implies the layout facts exactly as the specification
states them. -/
theorem inv_claimInv (c : CA α) (h : Inv c) : ClaimInv c := by
  obtain ⟨hcap, hlen, hcnt, hfront, hrear, hrel⟩ := h
  refine ⟨hcap, hcnt, ?_, ?_, ?_⟩
  · intro h1
    have hr := inv_rear c ⟨hcap, hlen, hcnt, hfront, hrear, hrel⟩ (by omega)
    rw [h1] at hr
    simp only [Nat.add_sub_cancel, Nat.mod_eq_of_lt hfront] at hr
    exact hr.symm
  · intro h2 hle
    have := inv_rear_nowrap c ⟨hcap, hlen, hcnt, hfront, hrear, hrel⟩ (by omega) hle
    omega
  · intro hw
    have := inv_rear_wrap c ⟨hcap, hlen, hcnt, hfront, hrear, hrel⟩ hw
    omega

/-! Constructor and push/pop invariance. -/

theorem inv_mk (dat : List (Option α)) (cnt cap front rear : Nat)
    (h1 : 2 ≤ cap) (h2 : dat.length = cap) (h3 : cnt ≤ cap)
    (h4 : front < cap) (h5 : rear < cap)
    (h6 : if cnt = 0 then front = 0 ∧ rear = cap - 1
          else rear = (front + cnt - 1) % cap) :
    Inv (⟨dat, cnt, cap, front, rear⟩ : CA α) :=
  ⟨h1, h2, h3, h4, h5, h6⟩

theorem fromList_eq (ds : List (Option α)) :
    CA.fromList ds =
      ⟨[none] ++ ds ++ [none], ds.length, ds.length + 2,
       if ds.length = 0 then 0 else 1,
       if ds.length = 0 then 1 else ds.length⟩ := by
  by_cases h : ds.length = 0
  · rcases List.length_eq_zero.mp h with rfl
    simp [CA.fromList]
  · have hlen3 : ([none] ++ ds ++ [none] : List (Option α)).length = ds.length + 2 := by
      simp
    have hne : ¬ (([none] ++ ds ++ [none] : List (Option α)).length = 2) := by
      rw [hlen3]
      omega
    simp only [CA.fromList]
    rw [if_neg hne, if_neg h, if_neg h]
    simp

theorem inv_fromList (ds : List (Option α)) : Inv (CA.fromList ds) := by
  rw [fromList_eq]
  by_cases h : ds.length = 0
  · rcases List.length_eq_zero.mp h with rfl
    simp [Inv]
  · apply inv_mk
    · omega
    · simp
    · omega
    · rw [if_neg h]; omega
    · rw [if_neg h]; omega
    · rw [if_neg h, if_neg h, if_neg h, Nat.add_sub_cancel_left,
        Nat.mod_eq_of_lt (by omega)]

theorem pushr1_notfull (c : CA α) (d : Option α) (h : c.cnt ≠ c.cap) :
    CA.pushr1 c d =
      { c with rear := (c.rear + 1) % c.cap,
               data := c.data.set ((c.rear + 1) % c.cap) d, cnt := c.cnt + 1 } := by
  simp [CA.pushr1, h]

theorem pushl1_notfull (c : CA α) (d : Option α) (h : c.cnt ≠ c.cap) :
    CA.pushl1 c d =
      { c with front := (c.front + c.cap - 1) % c.cap,
               data := c.data.set ((c.front + c.cap - 1) % c.cap) d, cnt := c.cnt + 1 } := by
  simp [CA.pushl1, h]

theorem pushr1_full (c : CA α) (d : Option α) (hfull : c.cnt = c.cap)
    (hne : (CA.doubleStorageCapacity c).cnt ≠ (CA.doubleStorageCapacity c).cap) :
    CA.pushr1 c d = CA.pushr1 (CA.doubleStorageCapacity c) d := by
  simp [CA.pushr1, hfull, hne]

theorem pushl1_full (c : CA α) (d : Option α) (hfull : c.cnt = c.cap)
    (hne : (CA.doubleStorageCapacity c).cnt ≠ (CA.doubleStorageCapacity c).cap) :
    CA.pushl1 c d = CA.pushl1 (CA.doubleStorageCapacity c) d := by
  simp [CA.pushl1, hfull, hne]

theorem inv_pushr_notfull (c : CA α) (d : Option α) (h : Inv c) (hlt : c.cnt < c.cap) :
    Inv (CA.pushr1 c d) := by
  rw [pushr1_notfull c d (by omega)]
  obtain ⟨hcap, hlen, hcnt, hfront, hrear, hrel⟩ := h
  apply inv_mk
  · exact hcap
  · simpa using hlen
  · omega
  · exact hfront
  · exact Nat.mod_lt _ (by omega)
  · rw [if_neg (by omega)]
    by_cases h0 : c.cnt = 0
    · rw [if_pos h0] at hrel
      obtain ⟨hf, hr⟩ := hrel
      rw [hf, hr, h0]
      have he : c.cap - 1 + 1 = c.cap := by omega
      rw [he, Nat.mod_self, Nat.mod_eq_of_lt (by omega)]
    · rw [if_neg h0] at hrel
      rw [hrel, Nat.mod_add_mod]
      congr 1
      omega

theorem inv_pushl_notfull (c : CA α) (d : Option α) (h : Inv c) (hlt : c.cnt < c.cap) :
    Inv (CA.pushl1 c d) := by
  rw [pushl1_notfull c d (by omega)]
  obtain ⟨hcap, hlen, hcnt, hfront, hrear, hrel⟩ := h
  apply inv_mk
  · exact hcap
  · simpa using hlen
  · omega
  · exact Nat.mod_lt _ (by omega)
  · exact hrear
  · rw [if_neg (by omega)]
    by_cases h0 : c.cnt = 0
    · rw [if_pos h0] at hrel
      obtain ⟨hf, hr⟩ := hrel
      rw [hf, hr, h0]
      have e1 : (0 + c.cap - 1) % c.cap = 0 + c.cap - 1 := Nat.mod_eq_of_lt (by omega)
      rw [e1]
      have e2 : 0 + c.cap - 1 + (0 + 1) - 1 = c.cap - 1 := by omega
      rw [e2, Nat.mod_eq_of_lt (by omega)]
    · rw [if_neg h0] at hrel
      have he : (c.front + c.cap - 1) % c.cap + (c.cnt + 1) - 1
          = (c.front + c.cap - 1) % c.cap + c.cnt := by omega
      rw [he, Nat.mod_add_mod]
      have he2 : c.front + c.cap - 1 + c.cnt = c.front + c.cnt - 1 + c.cap := by omega
      rw [he2, Nat.add_mod_right]
      exact hrel

theorem inv_double (c : CA α) (h : Inv c) (hfull : c.cnt = c.cap) :
    Inv (CA.doubleStorageCapacity c) ∧
      (CA.doubleStorageCapacity c).cap = 2 * c.cap ∧
      (CA.doubleStorageCapacity c).cnt = c.cnt ∧
      (∀ i, i < c.cnt →
        CA.logGet (CA.doubleStorageCapacity c) i = CA.logGet c i) := by
  have hInv := h
  obtain ⟨hcap, hlen, hcnt, hfront, hrear, -⟩ := h
  by_cases hle : c.front ≤ c.rear
  · have hno := inv_rear_nowrap c hInv (by omega) hle
    have hf0 : c.front = 0 := by omega
    have hr0 : c.rear = c.cap - 1 := by omega
    unfold CA.doubleStorageCapacity
    rw [if_pos hle]
    refine ⟨?_, by show c.cap * 2 = 2 * c.cap; omega, rfl, ?_⟩
    · apply inv_mk
      · omega
      · simp [hlen]; omega
      · omega
      · omega
      · omega
      · rw [if_neg (by omega)]
        rw [hf0, hr0, hfull, Nat.zero_add, Nat.mod_eq_of_lt (by omega)]
    · intro i hi
      unfold CA.logGet
      have key : (c.data ++ List.replicate c.cap (none : Option α)).getD
          ((c.front + i) % (c.cap * 2)) none
          = c.data.getD ((c.front + i) % c.cap) none := by
        rw [hf0, Nat.zero_add, Nat.mod_eq_of_lt (by omega),
          Nat.mod_eq_of_lt (by omega), getD_append_left _ _ _ _ (by omega)]
      exact key
  · have hw := inv_rear_wrap c hInv (by omega)
    have hr1 : c.rear = c.front - 1 := by omega
    have hf1 : 1 ≤ c.front := by omega
    unfold CA.doubleStorageCapacity
    rw [if_neg hle]
    have htake : (c.data.take c.front).length = c.front := by
      simp [List.length_take]; omega
    refine ⟨?_, rfl, rfl, ?_⟩
    · apply inv_mk
      · omega
      · simp [List.length_take, List.length_drop, hlen]; omega
      · omega
      · omega
      · omega
      · rw [if_neg (by omega)]
        rw [mod_big _ _ (by omega) (by omega)]
        omega
    · intro i hi
      unfold CA.logGet
      dsimp only
      have hlen12 : (c.data.take c.front ++
          List.replicate c.cap (none : Option α)).length = c.front + c.cap := by
        simp [List.length_take]
        omega
      by_cases hcase : c.front + i < c.cap
      · rw [Nat.mod_eq_of_lt (show c.front + c.cap + i < 2 * c.cap by omega)]
        rw [getD_append_right _ _ _ _ (by rw [hlen12]; omega), hlen12]
        have hidx : c.front + c.cap + i - (c.front + c.cap) = i := by omega
        rw [hidx, getD_drop, Nat.mod_eq_of_lt hcase]
      · rw [mod_big _ _ (by omega) (by omega)]
        rw [getD_append_left _ _ _ _ (by rw [hlen12]; omega)]
        rw [getD_append_left _ _ _ _ (by rw [htake]; omega)]
        rw [getD_take _ _ _ _ (by omega)]
        rw [mod_big _ _ (by omega) (by omega)]
        congr 1
        omega

theorem inv_pushr1 (c : CA α) (d : Option α) (h : Inv c) : Inv (CA.pushr1 c d) := by
  by_cases hfull : c.cnt = c.cap
  · obtain ⟨hd1, hd2, hd3, -⟩ := inv_double c h hfull
    have hcap : 2 ≤ c.cap := h.1
    rw [pushr1_full c d hfull (by omega)]
    exact inv_pushr_notfull _ d hd1 (by omega)
  · exact inv_pushr_notfull c d h (by have := h.2.2.1; omega)

theorem inv_pushl1 (c : CA α) (d : Option α) (h : Inv c) : Inv (CA.pushl1 c d) := by
  by_cases hfull : c.cnt = c.cap
  · obtain ⟨hd1, hd2, hd3, -⟩ := inv_double c h hfull
    have hcap : 2 ≤ c.cap := h.1
    rw [pushl1_full c d hfull (by omega)]
    exact inv_pushl_notfull _ d hd1 (by omega)
  · exact inv_pushl_notfull c d h (by have := h.2.2.1; omega)

theorem inv_popl (c : CA α) (h : Inv c) : Inv (CA.popl c).2 := by
  have hInv := h
  obtain ⟨hcap, hlen, hcnt, hfront, hrear, -⟩ := h
  unfold CA.popl
  by_cases h2 : 1 < c.cnt
  · have hrel := inv_rear c hInv (by omega)
    rw [if_pos h2]
    show Inv { c with data := c.data.set c.front none,
                      front := (c.front + 1) % c.cap, cnt := c.cnt - 1 }
    apply inv_mk
    · exact hcap
    · simpa using hlen
    · omega
    · exact Nat.mod_lt _ (by omega)
    · exact hrear
    · rw [if_neg (by omega)]
      have he : (c.front + 1) % c.cap + (c.cnt - 1) - 1
          = (c.front + 1) % c.cap + (c.cnt - 2) := by omega
      rw [he, Nat.mod_add_mod, hrel]
      congr 1
      omega
  · by_cases h1 : c.cnt = 1
    · rw [if_neg h2, if_pos h1]
      show Inv { c with data := c.data.set c.front none,
                        cnt := 0, front := 0, rear := c.cap - 1 }
      apply inv_mk
      · exact hcap
      · simpa using hlen
      · omega
      · omega
      · omega
      · rw [if_pos rfl]
        omega
    · rw [if_neg h2, if_neg h1]
      exact hInv

theorem inv_popr (c : CA α) (h : Inv c) : Inv (CA.popr c).2 := by
  have hInv := h
  obtain ⟨hcap, hlen, hcnt, hfront, hrear, -⟩ := h
  unfold CA.popr
  by_cases h2 : 1 < c.cnt
  · have hrel := inv_rear c hInv (by omega)
    rw [if_pos h2]
    show Inv { c with data := c.data.set c.rear none,
                      rear := (c.rear + c.cap - 1) % c.cap, cnt := c.cnt - 1 }
    apply inv_mk
    · exact hcap
    · simpa using hlen
    · omega
    · exact hfront
    · exact Nat.mod_lt _ (by omega)
    · rw [if_neg (by omega), hrel]
      have he : (c.front + c.cnt - 1) % c.cap + c.cap - 1
          = (c.front + c.cnt - 1) % c.cap + (c.cap - 1) := by omega
      rw [he, Nat.mod_add_mod]
      have he2 : c.front + c.cnt - 1 + (c.cap - 1)
          = c.front + (c.cnt - 1) - 1 + c.cap := by omega
      rw [he2, Nat.add_mod_right]
  · by_cases h1 : c.cnt = 1
    · rw [if_neg h2, if_pos h1]
      show Inv { c with data := c.data.set c.front none,
                        cnt := 0, front := 0, rear := c.cap - 1 }
      apply inv_mk
      · exact hcap
      · simpa using hlen
      · omega
      · omega
      · omega
      · rw [if_pos rfl]
        omega
    · rw [if_neg h2, if_neg h1]
      exact hInv

/-! Compaction, resize and the remaining operations. -/

theorem logGet_zero (c : CA α) (h : Inv c) :
    CA.logGet c 0 = c.data.getD c.front none := by
  unfold CA.logGet
  rw [Nat.add_zero, Nat.mod_eq_of_lt h.2.2.2.1]

theorem compact_zero (c : CA α) (h0 : c.cnt = 0) :
    CA.compactStorageCapacity c = ⟨[none, none], 0, 2, 0, 1⟩ := by
  unfold CA.compactStorageCapacity
  rw [h0]

theorem compact_one (c : CA α) (h1 : c.cnt = 1) :
    CA.compactStorageCapacity c
      = ⟨[none, c.data.getD c.front none, none], 1, 3, 1, 1⟩ := by
  unfold CA.compactStorageCapacity
  rw [h1]

theorem compact_big_eq (c : CA α) (h2 : 2 ≤ c.cnt) :
    CA.compactStorageCapacity c =
      if c.front ≤ c.rear then
        ⟨[none] ++ (c.data.drop c.front).take (c.rear + 1 - c.front) ++ [none],
         c.cnt, c.cnt + 2, 1, c.cnt⟩
      else
        ⟨[none] ++ c.data.drop c.front ++ c.data.take (c.rear + 1) ++ [none],
         c.cnt, c.cnt + 2, 1, c.cnt⟩ := by
  obtain ⟨k, hk⟩ : ∃ k, c.cnt = k + 2 := ⟨c.cnt - 2, by omega⟩
  unfold CA.compactStorageCapacity
  rw [hk]
  rfl

theorem compact_big (c : CA α) (h : Inv c) (h2 : 2 ≤ c.cnt) :
    (CA.compactStorageCapacity c).cap = c.cnt + 2 ∧
    (CA.compactStorageCapacity c).cnt = c.cnt ∧
    (CA.compactStorageCapacity c).front = 1 ∧
    (CA.compactStorageCapacity c).rear = c.cnt ∧
    (CA.compactStorageCapacity c).data.length = c.cnt + 2 ∧
    (∀ i, i < c.cnt →
      (CA.compactStorageCapacity c).data.getD (1 + i) none = CA.logGet c i) ∧
    (CA.compactStorageCapacity c).data.getD 0 none = none ∧
    (CA.compactStorageCapacity c).data.getD (c.cnt + 1) none = none := by
  have hInv := h
  obtain ⟨hcap, hlen, hcnt, hfront, hrear, -⟩ := h
  rw [compact_big_eq c h2]
  by_cases hle : c.front ≤ c.rear
  · have hno : c.rear = c.front + c.cnt - 1 := inv_rear_nowrap c hInv (by omega) hle
    rw [if_pos hle]
    dsimp only
    have hmid : ((c.data.drop c.front).take (c.rear + 1 - c.front)).length = c.cnt := by
      simp [List.length_take, List.length_drop, hlen]
      omega
    have hlen1 : (([none] ++ (c.data.drop c.front).take (c.rear + 1 - c.front)
        : List (Option α))).length = 1 + c.cnt := by
      simp only [List.length_append, hmid, List.length_singleton]
    refine ⟨by omega, by omega, rfl, by omega, ?_, ?_, ?_, ?_⟩
    · simp only [List.length_append, hmid, List.length_singleton]
      omega
    · intro i hi
      rw [getD_append_left _ _ _ _ (by rw [hlen1]; omega)]
      rw [getD_append_right _ _ _ _ (by simp)]
      simp only [List.length_singleton]
      rw [getD_take _ _ _ _ (by omega), getD_drop]
      unfold CA.logGet
      rw [Nat.mod_eq_of_lt (by omega)]
      congr 1
      omega
    · rw [getD_append_left _ _ _ _ (by rw [hlen1]; omega)]
      rw [getD_append_left _ _ _ _ (by simp)]
      rfl
    · rw [getD_append_right _ _ _ _ (by rw [hlen1]; omega), hlen1]
      have : c.cnt + 1 - (1 + c.cnt) = 0 := by omega
      rw [this]
      rfl
  · have hw := inv_rear_wrap c hInv (by omega)
    rw [if_neg hle]
    dsimp only
    have hdrop : (c.data.drop c.front).length = c.cap - c.front := by
      simp [List.length_drop, hlen]
    have htk : (c.data.take (c.rear + 1)).length = c.rear + 1 := by
      simp [List.length_take]
      omega
    have hlen1 : (([none] ++ c.data.drop c.front : List (Option α))).length
        = 1 + (c.cap - c.front) := by
      simp only [List.length_append, hdrop, List.length_singleton]
    have hlen2 : (([none] ++ c.data.drop c.front ++ c.data.take (c.rear + 1)
        : List (Option α))).length = 1 + c.cnt := by
      simp only [List.length_append, hdrop, htk, List.length_singleton]
      omega
    refine ⟨by omega, by omega, rfl, by omega, ?_, ?_, ?_, ?_⟩
    · simp only [List.length_append, hdrop, htk, List.length_singleton]
      omega
    · intro i hi
      rw [getD_append_left _ _ _ _ (by rw [hlen2]; omega)]
      by_cases hcase : i < c.cap - c.front
      · rw [getD_append_left _ _ _ _ (by rw [hlen1]; omega)]
        rw [getD_append_right _ _ _ _ (by simp)]
        simp only [List.length_singleton]
        rw [getD_drop]
        unfold CA.logGet
        rw [Nat.mod_eq_of_lt (by omega)]
        congr 1
        omega
      · rw [getD_append_right _ _ _ _ (by rw [hlen1]; omega), hlen1]
        rw [getD_take _ _ _ _ (by omega)]
        unfold CA.logGet
        rw [mod_big _ _ (by omega) (by omega)]
        congr 1
        omega
    · rw [getD_append_left _ _ _ _ (by rw [hlen2]; omega)]
      rw [getD_append_left _ _ _ _ (by rw [hlen1]; omega)]
      rw [getD_append_left _ _ _ _ (by simp)]
      rfl
    · rw [getD_append_right _ _ _ _ (by rw [hlen2]; omega), hlen2]
      have : c.cnt + 1 - (1 + c.cnt) = 0 := by omega
      rw [this]
      rfl

theorem inv_compact (c : CA α) (h : Inv c) : Inv (CA.compactStorageCapacity c) := by
  by_cases h0 : c.cnt = 0
  · rw [compact_zero c h0]
    exact inv_mk _ _ _ _ _ (by omega) (by simp) (by omega) (by omega) (by omega)
      (by rw [if_pos rfl]; omega)
  · by_cases h1 : c.cnt = 1
    · rw [compact_one c h1]
      exact inv_mk _ _ _ _ _ (by omega) (by simp) (by omega) (by omega) (by omega)
        (by rw [if_neg (by omega)])
    · obtain ⟨hcap2, hcnt2, hfront2, hrear2, hlen2, -⟩ := compact_big c h (by omega)
      refine ⟨by rw [hcap2]; omega, by rw [hlen2, hcap2], by rw [hcnt2, hcap2]; omega,
        by rw [hfront2, hcap2]; omega, by rw [hrear2, hcap2]; omega, ?_⟩
      rw [if_neg (by rw [hcnt2]; omega), hrear2, hfront2, hcnt2, hcap2,
        Nat.add_sub_cancel_left, Nat.mod_eq_of_lt (by omega)]

theorem toList_congr (c1 c2 : CA α) (hcnt : c1.cnt = c2.cnt)
    (h : ∀ i, i < c2.cnt → CA.logGet c1 i = CA.logGet c2 i) :
    CA.toList c1 = CA.toList c2 := by
  unfold CA.toList
  rw [hcnt]
  apply List.map_congr_left
  intro i hi
  exact h i (List.mem_range.mp hi)

theorem toList_compact (c : CA α) (h : Inv c) :
    CA.toList (CA.compactStorageCapacity c) = CA.toList c := by
  by_cases h0 : c.cnt = 0
  · unfold CA.toList
    rw [compact_zero c h0]
    rw [h0]
    rfl
  · by_cases h1 : c.cnt = 1
    · unfold CA.toList
      rw [compact_one c h1, h1]
      simp [List.range_succ, CA.logGet]
      rw [Nat.mod_eq_of_lt h.2.2.2.1]
    · obtain ⟨hcap2, hcnt2, hfront2, hrear2, hlen2, hget, -, -⟩ := compact_big c h (by omega)
      apply toList_congr _ _ hcnt2
      intro i hi
      unfold CA.logGet
      rw [hcap2, hfront2, Nat.mod_eq_of_lt (by omega)]
      exact hget i hi

theorem resize_default (c : CA α) (h : Inv c) :
    CA.resize c 2 = CA.compactStorageCapacity c := by
  have h2 : 2 ≤ (CA.compactStorageCapacity c).cap := (inv_compact c h).1
  unfold CA.resize
  rw [if_neg (by omega)]

theorem inv_resize (c : CA α) (m : Nat) (h : Inv c) : Inv (CA.resize c m) := by
  have hc := inv_compact c h
  unfold CA.resize
  by_cases hm : m > (CA.compactStorageCapacity c).cap
  · rw [if_pos hm]
    obtain ⟨hcap, hlen, hcnt, hfront, hrear, hrel⟩ := hc
    by_cases h0 : (CA.compactStorageCapacity c).cnt = 0
    · rw [if_pos h0]
      dsimp only
      apply inv_mk
      · omega
      · simp only [List.length_append, List.length_replicate, hlen]
        omega
      · omega
      · omega
      · omega
      · rw [if_pos h0]
        omega
    · rw [if_neg h0]
      rw [if_neg h0] at hrel
      apply inv_mk
      · omega
      · simp only [List.length_append, List.length_replicate, hlen]
        omega
      · omega
      · omega
      · omega
      · rw [if_neg h0]
        have hlt : (CA.compactStorageCapacity c).front
            + (CA.compactStorageCapacity c).cnt - 1 < (CA.compactStorageCapacity c).cap := by
          by_cases hz : c.cnt = 0
          · rw [compact_zero c hz] at h0
            simp at h0
          · by_cases h1 : c.cnt = 1
            · rw [compact_one c h1]
              show 1 + 1 - 1 < 3
              decide
            · obtain ⟨e1, e2, e3, -⟩ := compact_big c h (by omega)
              rw [e1, e2, e3]
              omega
        rw [Nat.mod_eq_of_lt hlt] at hrel
        rw [hrel, Nat.mod_eq_of_lt (by omega)]
  · rw [if_neg hm]
    exact hc

theorem inv_set_data (c : CA α) (j : Nat) (v : Option α) (h : Inv c) :
    Inv { c with data := c.data.set j v } := by
  obtain ⟨h1, h2, h3, h4, h5, h6⟩ := h
  exact ⟨h1, by simpa using h2, h3, h4, h5, h6⟩

theorem inv_emptyCA (c : CA α) (h2 : 2 ≤ c.cap) : Inv (CA.emptyOp c) := by
  apply inv_mk
  · exact h2
  · simp
  · omega
  · omega
  · omega
  · rw [if_pos rfl]
    omega

theorem inv_setItem (c : CA α) (idx : Int) (v : Option α) (h : Inv c) :
    Inv (CA.setItem c idx v).2 := by
  unfold CA.setItem
  split
  · exact inv_set_data c _ v h
  · split
    · exact inv_set_data c _ v h
    · split
      · exact h
      · exact h

theorem inv_popltAux (c : CA α) (n : Nat) (h : Inv c) : Inv (CA.popltAux c n).2 := by
  induction n generalizing c with
  | zero => exact h
  | succ n ih =>
    unfold CA.popltAux
    have hc1 : Inv (CA.popl c).2 := inv_popl c h
    rcases hp : CA.popl c with ⟨r, c1⟩
    rw [hp] at hc1
    cases r with
    | error e => exact hc1
    | ok d => exact ih c1 hc1

theorem inv_poprtAux (c : CA α) (n : Nat) (h : Inv c) : Inv (CA.poprtAux c n).2 := by
  induction n generalizing c with
  | zero => exact h
  | succ n ih =>
    unfold CA.poprtAux
    have hc1 : Inv (CA.popr c).2 := inv_popr c h
    rcases hp : CA.popr c with ⟨r, c1⟩
    rw [hp] at hc1
    cases r with
    | error e => exact hc1
    | ok d => exact ih c1 hc1

theorem inv_rotlAux (c : CA α) (n : Nat) (h : Inv c) : Inv (CA.rotlAux c n).2 := by
  induction n generalizing c with
  | zero => exact h
  | succ n ih =>
    unfold CA.rotlAux
    have hc1 : Inv (CA.popl c).2 := inv_popl c h
    rcases hp : CA.popl c with ⟨r, c1⟩
    rw [hp] at hc1
    cases r with
    | error e => exact hc1
    | ok d => exact ih (CA.pushr1 c1 d) (inv_pushr1 c1 d hc1)

theorem inv_rotrAux (c : CA α) (n : Nat) (h : Inv c) : Inv (CA.rotrAux c n).2 := by
  induction n generalizing c with
  | zero => exact h
  | succ n ih =>
    unfold CA.rotrAux
    have hc1 : Inv (CA.popr c).2 := inv_popr c h
    rcases hp : CA.popr c with ⟨r, c1⟩
    rw [hp] at hc1
    cases r with
    | error e => exact hc1
    | ok d => exact ih (CA.pushl1 c1 d) (inv_pushl1 c1 d hc1)

theorem range_map_getD {β : Type} (l : List β) (d : β) :
    (List.range l.length).map (fun i => l.getD i d) = l := by
  apply List.ext_getElem
  · simp
  · intro i h1 h2
    simp [List.getD_eq_getElem?_getD, List.getElem?_eq_getElem h2]

theorem logGet_fromList (ds : List (Option α)) (i : Nat) (hi : i < ds.length) :
    CA.logGet (CA.fromList ds) i = ds.getD i none := by
  rw [fromList_eq]
  unfold CA.logGet
  dsimp only
  rw [if_neg (by omega)]
  rw [Nat.mod_eq_of_lt (by omega)]
  rw [getD_append_left _ _ _ _ (by simp; omega)]
  rw [getD_append_right _ _ _ _ (by simp)]
  simp only [List.length_singleton, Nat.add_sub_cancel_left]

theorem cnt_fromList (ds : List (Option α)) : (CA.fromList ds).cnt = ds.length := by
  rw [fromList_eq]

theorem toList_fromList (ds : List (Option α)) : CA.toList (CA.fromList ds) = ds := by
  unfold CA.toList
  rw [cnt_fromList]
  have : ∀ i ∈ List.range ds.length,
      CA.logGet (CA.fromList ds) i = ds.getD i none := by
    intro i hi
    exact logGet_fromList ds i (List.mem_range.mp hi)
  calc (List.range ds.length).map (fun i => (CA.fromList ds).data.getD
        (((CA.fromList ds).front + i) % (CA.fromList ds).cap) none)
      = (List.range ds.length).map (fun i => ds.getD i none) :=
        List.map_congr_left this
    _ = ds := range_map_getD ds none

/-! Content of pushes, and the fixed-capacity class. -/

theorem cap_pushr1_notfull (c : CA α) (d : Option α) (h : c.cnt ≠ c.cap) :
    (CA.pushr1 c d).cap = c.cap := by
  rw [pushr1_notfull c d h]

theorem cap_pushl1_notfull (c : CA α) (d : Option α) (h : c.cnt ≠ c.cap) :
    (CA.pushl1 c d).cap = c.cap := by
  rw [pushl1_notfull c d h]

theorem logGet_pushr_notfull (c : CA α) (d : Option α) (h : Inv c) (hlt : c.cnt < c.cap)
    (i : Nat) (hi : i < c.cnt) : CA.logGet (CA.pushr1 c d) i = CA.logGet c i := by
  have hcap := h.1
  have hrel := inv_rear c h (by omega)
  rw [pushr1_notfull c d (by omega)]
  unfold CA.logGet
  dsimp only
  apply getD_set_ne
  intro heq
  have hr : (c.rear + 1) % c.cap = (c.front + c.cnt) % c.cap := by
    rw [hrel, Nat.mod_add_mod]
    congr 1
    omega
  rw [hr] at heq
  have := mod_shift_inj c.front c.cnt i c.cap (by omega) (by omega) heq
  omega

theorem logGet_pushl_notfull (c : CA α) (d : Option α) (h : Inv c) (hlt : c.cnt < c.cap)
    (i : Nat) (hi : i < c.cnt) : CA.logGet (CA.pushl1 c d) (i + 1) = CA.logGet c i := by
  have hcap := h.1
  rw [pushl1_notfull c d (by omega)]
  unfold CA.logGet
  dsimp only
  have hslot : ((c.front + c.cap - 1) % c.cap + (i + 1)) % c.cap
      = (c.front + i) % c.cap := by
    rw [Nat.mod_add_mod]
    have he : c.front + c.cap - 1 + (i + 1) = c.front + i + c.cap := by omega
    rw [he, Nat.add_mod_right]
  rw [hslot]
  apply getD_set_ne
  intro heq
  have h1 : (c.front + (c.cap - 1)) % c.cap = (c.front + i) % c.cap := by
    have he : c.front + c.cap - 1 = c.front + (c.cap - 1) := by omega
    rw [he] at heq
    exact heq
  have := mod_shift_inj c.front (c.cap - 1) i c.cap (by omega) (by omega) h1
  omega

theorem pushr1_full_spec (c : CA α) (d : Option α) (h : Inv c) (hfull : c.cnt = c.cap) :
    (CA.pushr1 c d).cap = 2 * c.cap ∧
      ∀ i, i < c.cnt → CA.logGet (CA.pushr1 c d) i = CA.logGet c i := by
  obtain ⟨hd1, hd2, hd3, hd4⟩ := inv_double c h hfull
  have hcap := h.1
  rw [pushr1_full c d hfull (by omega)]
  refine ⟨?_, ?_⟩
  · rw [cap_pushr1_notfull _ d (by omega), hd2]
  · intro i hi
    rw [logGet_pushr_notfull _ d hd1 (by omega) i (by omega)]
    exact hd4 i hi

theorem pushl1_full_spec (c : CA α) (d : Option α) (h : Inv c) (hfull : c.cnt = c.cap) :
    (CA.pushl1 c d).cap = 2 * c.cap ∧
      ∀ i, i < c.cnt → CA.logGet (CA.pushl1 c d) (i + 1) = CA.logGet c i := by
  obtain ⟨hd1, hd2, hd3, hd4⟩ := inv_double c h hfull
  have hcap := h.1
  rw [pushl1_full c d hfull (by omega)]
  refine ⟨?_, ?_⟩
  · rw [cap_pushl1_notfull _ d (by omega), hd2]
  · intro i hi
    rw [logGet_pushl_notfull _ d hd1 (by omega) i (by omega)]
    exact hd4 i hi

theorem cafPushr_full (c : CAF α) (d : Option α) (h : c.cnt = c.cap) :
    CAF.pushr c d = (.error "Method pushr called on a full CAF", c) := by
  simp [CAF.pushr, h]

theorem cafPushl_full (c : CAF α) (d : Option α) (h : c.cnt = c.cap) :
    CAF.pushl c d = (.error "Method pushl called on a full CAF", c) := by
  simp [CAF.pushl, h]

theorem cafPushr_notfull (c : CAF α) (d : Option α) (h : ¬ c.cnt = c.cap) :
    CAF.pushr c d = (.ok (), CA.pushr1 c d) := by
  rw [pushr1_notfull c d h]
  simp [CAF.pushr, h]

theorem cafPushl_notfull (c : CAF α) (d : Option α) (h : ¬ c.cnt = c.cap) :
    CAF.pushl c d = (.ok (), CA.pushl1 c d) := by
  rw [pushl1_notfull c d h]
  simp [CAF.pushl, h]

theorem cafPopl_snd (c : CAF α) : (CAF.popl c).2 = (CA.popl c).2 := by
  unfold CAF.popl CA.popl
  by_cases h2 : 1 < c.cnt
  · rw [if_pos h2, if_pos h2]
  · by_cases h1 : c.cnt = 1
    · rw [if_neg h2, if_neg h2, if_pos h1, if_pos h1]
    · rw [if_neg h2, if_neg h2, if_neg h1, if_neg h1]

theorem cafPopr_snd (c : CAF α) : (CAF.popr c).2 = (CA.popr c).2 := by
  unfold CAF.popr CA.popr
  by_cases h2 : 1 < c.cnt
  · rw [if_pos h2, if_pos h2]
  · by_cases h1 : c.cnt = 1
    · rw [if_neg h2, if_neg h2, if_pos h1, if_pos h1]
    · rw [if_neg h2, if_neg h2, if_neg h1, if_neg h1]

theorem cap_popl (c : CA α) : (CA.popl c).2.cap = c.cap := by
  unfold CA.popl
  by_cases h2 : 1 < c.cnt
  · rw [if_pos h2]
  · by_cases h1 : c.cnt = 1
    · rw [if_neg h2, if_pos h1]
    · rw [if_neg h2, if_neg h1]

theorem cap_popr (c : CA α) : (CA.popr c).2.cap = c.cap := by
  unfold CA.popr
  by_cases h2 : 1 < c.cnt
  · rw [if_pos h2]
  · by_cases h1 : c.cnt = 1
    · rw [if_neg h2, if_pos h1]
    · rw [if_neg h2, if_neg h1]

theorem cafPopl_inv_cap (c : CAF α) (h : Inv c) :
    Inv (CAF.popl c).2 ∧ (CAF.popl c).2.cap = c.cap := by
  rw [cafPopl_snd]
  exact ⟨inv_popl c h, cap_popl c⟩

theorem cafPopr_inv_cap (c : CAF α) (h : Inv c) :
    Inv (CAF.popr c).2 ∧ (CAF.popr c).2.cap = c.cap := by
  rw [cafPopr_snd]
  exact ⟨inv_popr c h, cap_popr c⟩

theorem cafPushr_inv_cap (c : CAF α) (d : Option α) (h : Inv c) :
    Inv (CAF.pushr c d).2 ∧ (CAF.pushr c d).2.cap = c.cap := by
  by_cases hfull : c.cnt = c.cap
  · rw [cafPushr_full c d hfull]
    exact ⟨h, rfl⟩
  · rw [cafPushr_notfull c d hfull]
    exact ⟨inv_pushr_notfull c d h (by have := h.2.2.1; omega),
      cap_pushr1_notfull c d hfull⟩

theorem cafPushl_inv_cap (c : CAF α) (d : Option α) (h : Inv c) :
    Inv (CAF.pushl c d).2 ∧ (CAF.pushl c d).2.cap = c.cap := by
  by_cases hfull : c.cnt = c.cap
  · rw [cafPushl_full c d hfull]
    exact ⟨h, rfl⟩
  · rw [cafPushl_notfull c d hfull]
    exact ⟨inv_pushl_notfull c d h (by have := h.2.2.1; omega),
      cap_pushl1_notfull c d hfull⟩

theorem cafPopltAux_inv_cap (c : CAF α) (n : Nat) (h : Inv c) :
    Inv (CAF.popltAux c n).2 ∧ (CAF.popltAux c n).2.cap = c.cap := by
  induction n generalizing c with
  | zero => exact ⟨h, rfl⟩
  | succ n ih =>
    unfold CAF.popltAux
    have hc1 := cafPopl_inv_cap c h
    rcases hp : CAF.popl c with ⟨r, c1⟩
    rw [hp] at hc1
    dsimp only at hc1
    cases r with
    | error e =>
      dsimp only
      exact hc1
    | ok d =>
      dsimp only
      obtain ⟨ha, hb⟩ := ih c1 hc1.1
      exact ⟨ha, by rw [hb, hc1.2]⟩

theorem cafPoprtAux_inv_cap (c : CAF α) (n : Nat) (h : Inv c) :
    Inv (CAF.poprtAux c n).2 ∧ (CAF.poprtAux c n).2.cap = c.cap := by
  induction n generalizing c with
  | zero => exact ⟨h, rfl⟩
  | succ n ih =>
    unfold CAF.poprtAux
    have hc1 := cafPopr_inv_cap c h
    rcases hp : CAF.popr c with ⟨r, c1⟩
    rw [hp] at hc1
    dsimp only at hc1
    cases r with
    | error e =>
      dsimp only
      exact hc1
    | ok d =>
      dsimp only
      obtain ⟨ha, hb⟩ := ih c1 hc1.1
      exact ⟨ha, by rw [hb, hc1.2]⟩

theorem cafRotlAux_inv_cap (c : CAF α) (n : Nat) (h : Inv c) :
    Inv (CAF.rotlAux c n).2 ∧ (CAF.rotlAux c n).2.cap = c.cap := by
  induction n generalizing c with
  | zero => exact ⟨h, rfl⟩
  | succ n ih =>
    unfold CAF.rotlAux
    have hc1 := cafPopl_inv_cap c h
    rcases hp : CAF.popl c with ⟨r, c1⟩
    rw [hp] at hc1
    dsimp only at hc1
    cases r with
    | error e =>
      dsimp only
      exact hc1
    | ok d =>
      dsimp only
      have hc2 := cafPushr_inv_cap c1 d hc1.1
      rcases hq : CAF.pushr c1 d with ⟨r2, c2⟩
      rw [hq] at hc2
      dsimp only at hc2
      cases r2 with
      | error e =>
        dsimp only
        exact ⟨hc2.1, by rw [hc2.2, hc1.2]⟩
      | ok u =>
        dsimp only
        obtain ⟨ha, hb⟩ := ih c2 hc2.1
        exact ⟨ha, by rw [hb, hc2.2, hc1.2]⟩

theorem cafRotrAux_inv_cap (c : CAF α) (n : Nat) (h : Inv c) :
    Inv (CAF.rotrAux c n).2 ∧ (CAF.rotrAux c n).2.cap = c.cap := by
  induction n generalizing c with
  | zero => exact ⟨h, rfl⟩
  | succ n ih =>
    unfold CAF.rotrAux
    have hc1 := cafPopr_inv_cap c h
    rcases hp : CAF.popr c with ⟨r, c1⟩
    rw [hp] at hc1
    dsimp only at hc1
    cases r with
    | error e =>
      dsimp only
      exact hc1
    | ok d =>
      dsimp only
      have hc2 := cafPushl_inv_cap c1 d hc1.1
      rcases hq : CAF.pushl c1 d with ⟨r2, c2⟩
      rw [hq] at hc2
      dsimp only at hc2
      cases r2 with
      | error e =>
        dsimp only
        exact ⟨hc2.1, by rw [hc2.2, hc1.2]⟩
      | ok u =>
        dsimp only
        obtain ⟨ha, hb⟩ := ih c2 hc2.1
        exact ⟨ha, by rw [hb, hc2.2, hc1.2]⟩

theorem cafSetItem_inv_cap (c : CAF α) (idx : Int) (v : Option α) (h : Inv c) :
    Inv (CAF.setItem c idx v).2 ∧ (CAF.setItem c idx v).2.cap = c.cap := by
  unfold CAF.setItem
  split
  · exact ⟨inv_set_data c _ v h, rfl⟩
  · split
    · exact ⟨inv_set_data c _ v h, rfl⟩
    · split
      · exact ⟨h, rfl⟩
      · exact ⟨h, rfl⟩

theorem cafFromList_cnt (ds : List (Option α)) (capacity : Nat) :
    (CAF.fromList ds capacity).cnt = ds.length := by
  unfold CAF.fromList
  by_cases h : ds.length = 0
  · rw [if_pos h, h]
  · rw [if_neg h]

theorem inv_cafFromList (ds : List (Option α)) (capacity : Nat) :
    Inv (CAF.fromList ds capacity) := by
  unfold CAF.fromList
  by_cases h : ds.length = 0
  · rw [if_pos h]
    apply inv_mk
    · omega
    · simp only [List.length_append, List.length_replicate]
      omega
    · omega
    · omega
    · omega
    · rw [if_pos rfl]
      omega
  · rw [if_neg h]
    apply inv_mk
    · omega
    · simp only [List.length_append, List.length_replicate]
      omega
    · omega
    · omega
    · omega
    · rw [if_neg h, Nat.zero_add, Nat.mod_eq_of_lt (by omega)]

theorem logGet_cafFromList (ds : List (Option α)) (capacity : Nat) (i : Nat)
    (hi : i < ds.length) :
    CA.logGet (CAF.fromList ds capacity) i = ds.getD i none := by
  unfold CAF.fromList
  rw [if_neg (by omega)]
  unfold CA.logGet
  dsimp only
  rw [Nat.zero_add, Nat.mod_eq_of_lt (by omega), getD_append_left _ _ _ _ (by omega)]

/-! Iterator drains: a started generator walks its snapshot and yields the
logical sequence captured at the first advance. -/

theorem iterRunStep_ne_unstarted (cap rear pos : Nat) (snap : List (Option α)) :
    (iterRunStep cap rear pos snap).2 ≠ IterGen.unstarted := by
  unfold iterRunStep
  split
  · simp
  · simp

theorem revRunStep_ne_unstarted (cap front pos : Nat) (snap : List (Option α)) :
    (revRunStep cap front pos snap).2 ≠ RevGen.unstarted := by
  unfold revRunStep
  split
  · simp
  · simp

theorem iterNext_running_eq (live : CA α) (cap rear pos : Nat) (snap : List (Option α)) :
    iterNext live (IterGen.running cap rear pos snap)
      = (some (iterRunStep cap rear pos snap).1, (iterRunStep cap rear pos snap).2) := rfl

theorem revNext_running_eq (live : CA α) (cap front pos : Nat) (snap : List (Option α)) :
    revNext live (RevGen.running cap front pos snap)
      = (some (revRunStep cap front pos snap).1, (revRunStep cap front pos snap).2) := rfl

theorem iterNext_unstarted_pos (live : CA α) (h : 0 < live.cnt) :
    iterNext live IterGen.unstarted
      = (some (iterRunStep live.cap live.rear live.front live.data).1,
         (iterRunStep live.cap live.rear live.front live.data).2) := by
  unfold iterNext
  rw [if_pos h]

theorem revNext_unstarted_pos (live : CA α) (h : 0 < live.cnt) :
    revNext live RevGen.unstarted
      = (some (revRunStep live.cap live.front live.rear live.data).1,
         (revRunStep live.cap live.front live.rear live.data).2) := by
  unfold revNext
  rw [if_pos h]

theorem iterNext_unstarted_zero (live : CA α) (h : ¬ 0 < live.cnt) :
    iterNext live IterGen.unstarted = (none, IterGen.finished) := by
  unfold iterNext
  rw [if_neg h]

theorem revNext_unstarted_zero (live : CA α) (h : ¬ 0 < live.cnt) :
    revNext live RevGen.unstarted = (none, RevGen.finished) := by
  unfold revNext
  rw [if_neg h]

theorem drainMut_succ (muts : Nat → CA α) (k : Nat) (g : IterGen α) (n : Nat) :
    drainMut muts k g (n + 1)
      = (match iterNext (muts k) g with
          | (none, _) => []
          | (some v, g1) => v :: drainMut muts (k + 1) g1 n) := rfl

theorem drainRevMut_succ (muts : Nat → CA α) (k : Nat) (g : RevGen α) (n : Nat) :
    drainRevMut muts k g (n + 1)
      = (match revNext (muts k) g with
          | (none, _) => []
          | (some v, g1) => v :: drainRevMut muts (k + 1) g1 n) := rfl

theorem drainMut_irrel (muts muts2 : Nat → CA α) (k k2 : Nat) (g : IterGen α)
    (hg : g ≠ IterGen.unstarted) (fuel : Nat) :
    drainMut muts k g fuel = drainMut muts2 k2 g fuel := by
  induction fuel generalizing g k k2 with
  | zero => rfl
  | succ n ih =>
    cases g with
    | unstarted => exact absurd rfl hg
    | finished => rfl
    | running cap rear pos snap =>
      rw [drainMut_succ, drainMut_succ, iterNext_running_eq, iterNext_running_eq]
      dsimp only
      refine congrArg (List.cons _) ?_
      apply ih
      exact iterRunStep_ne_unstarted cap rear pos snap

theorem drainRevMut_irrel (muts muts2 : Nat → CA α) (k k2 : Nat) (g : RevGen α)
    (hg : g ≠ RevGen.unstarted) (fuel : Nat) :
    drainRevMut muts k g fuel = drainRevMut muts2 k2 g fuel := by
  induction fuel generalizing g k k2 with
  | zero => rfl
  | succ n ih =>
    cases g with
    | unstarted => exact absurd rfl hg
    | finished => rfl
    | running cap front pos snap =>
      rw [drainRevMut_succ, drainRevMut_succ, revNext_running_eq, revNext_running_eq]
      dsimp only
      refine congrArg (List.cons _) ?_
      apply ih
      exact revRunStep_ne_unstarted cap front pos snap

theorem drainMut_start (muts muts2 : Nat → CA α) (k k2 fuel : Nat)
    (hpos : 0 < (muts k).cnt) :
    drainMut muts k IterGen.unstarted fuel
      = drainMut muts2 k2
          (IterGen.running (muts k).cap (muts k).rear (muts k).front (muts k).data)
          fuel := by
  cases fuel with
  | zero => rfl
  | succ n =>
    rw [drainMut_succ, drainMut_succ, iterNext_unstarted_pos (muts k) hpos,
      iterNext_running_eq]
    dsimp only
    refine congrArg (List.cons _) ?_
    apply drainMut_irrel
    exact iterRunStep_ne_unstarted _ _ _ _

theorem drainRevMut_start (muts muts2 : Nat → CA α) (k k2 fuel : Nat)
    (hpos : 0 < (muts k).cnt) :
    drainRevMut muts k RevGen.unstarted fuel
      = drainRevMut muts2 k2
          (RevGen.running (muts k).cap (muts k).front (muts k).rear (muts k).data)
          fuel := by
  cases fuel with
  | zero => rfl
  | succ n =>
    rw [drainRevMut_succ, drainRevMut_succ, revNext_unstarted_pos (muts k) hpos,
      revNext_running_eq]
    dsimp only
    refine congrArg (List.cons _) ?_
    apply drainRevMut_irrel
    exact revRunStep_ne_unstarted _ _ _ _

theorem drainMut_running (muts : Nat → CA α) (k0 cap cnt front rear : Nat)
    (snap : List (Option α)) (hcnt : cnt ≤ cap) (hfront : front < cap)
    (hrel : rear = (front + cnt - 1) % cap)
    (j fuel : Nat) (hj : j < cnt) (hfuel : cnt - j ≤ fuel) :
    drainMut muts k0 (IterGen.running cap rear ((front + j) % cap) snap) fuel
      = (List.range (cnt - j)).map
          (fun i => snap.getD ((front + (j + i)) % cap) none) := by
  induction fuel generalizing j k0 with
  | zero => omega
  | succ n ih =>
    rw [drainMut_succ, iterNext_running_eq]
    by_cases hlast : j = cnt - 1
    · have hpr : (front + j) % cap = rear := by
        rw [hrel]
        congr 1
        omega
      have hstep : iterRunStep cap rear ((front + j) % cap) snap
          = (snap.getD ((front + j) % cap) none, IterGen.finished) := by
        unfold iterRunStep
        rw [if_pos hpr]
      rw [hstep]
      dsimp only
      have hdone : drainMut muts (k0 + 1) (IterGen.finished : IterGen α) n = [] := by
        cases n <;> rfl
      rw [hdone]
      have hone : cnt - j = 1 := by omega
      rw [hone]
      show [snap.getD ((front + j) % cap) none]
        = [snap.getD ((front + (j + 0)) % cap) none]
      rw [Nat.add_zero]
    · have hpr : (front + j) % cap ≠ rear := by
        rw [hrel]
        intro heq
        have := mod_shift_inj front j (cnt - 1) cap (by omega) (by omega)
          (by rw [heq]; congr 1; omega)
        omega
      have hstep : iterRunStep cap rear ((front + j) % cap) snap
          = (snap.getD ((front + j) % cap) none,
             IterGen.running cap rear ((front + (j + 1)) % cap) snap) := by
        unfold iterRunStep
        rw [if_neg hpr, Nat.mod_add_mod, Nat.add_assoc]
      rw [hstep]
      dsimp only
      rw [ih (k0 + 1) (j + 1) (by omega) (by omega)]
      have hsucc : cnt - j = (cnt - (j + 1)) + 1 := by omega
      rw [hsucc, List.range_succ_eq_map (cnt - (j + 1)), List.map_cons, List.map_map]
      refine congrArg (List.cons _) ?_
      apply List.map_congr_left
      intro i hi
      have he : front + (j + 1 + i) = front + (j + (i + 1)) := by omega
      show snap.getD ((front + (j + 1 + i)) % cap) none
        = snap.getD ((front + (j + (i + 1))) % cap) none
      rw [he]

theorem drainRevMut_running (muts : Nat → CA α) (k0 cap cnt front : Nat)
    (snap : List (Option α)) (hcap : 0 < cap) (hcnt : cnt ≤ cap) (hfront : front < cap)
    (j fuel : Nat) (hj : j < cnt) (hfuel : j + 1 ≤ fuel) :
    drainRevMut muts k0 (RevGen.running cap front ((front + j) % cap) snap) fuel
      = (List.range (j + 1)).map
          (fun i => snap.getD ((front + (j - i)) % cap) none) := by
  induction fuel generalizing j k0 with
  | zero => omega
  | succ n ih =>
    rw [drainRevMut_succ, revNext_running_eq]
    by_cases hfirst : j = 0
    · subst hfirst
      have hpr : (front + 0) % cap = front := by
        rw [Nat.add_zero, Nat.mod_eq_of_lt hfront]
      have hstep : revRunStep cap front ((front + 0) % cap) snap
          = (snap.getD ((front + 0) % cap) none, RevGen.finished) := by
        unfold revRunStep
        rw [if_pos hpr]
      rw [hstep]
      dsimp only
      have hdone : drainRevMut muts (k0 + 1) (RevGen.finished : RevGen α) n = [] := by
        cases n <;> rfl
      rw [hdone]
      rfl
    · have hpr : (front + j) % cap ≠ front := by
        intro heq
        have heq2 : (front + j) % cap = (front + 0) % cap := by
          rw [heq, Nat.add_zero, Nat.mod_eq_of_lt hfront]
        have := mod_shift_inj front j 0 cap (by omega) (by omega) heq2
        omega
      have hposnext : ((front + j) % cap + cap - 1) % cap = (front + (j - 1)) % cap := by
        have he : (front + j) % cap + cap - 1 = (front + j) % cap + (cap - 1) := by
          have := Nat.mod_lt (front + j) hcap
          omega
        rw [he, Nat.mod_add_mod]
        have he2 : front + j + (cap - 1) = front + (j - 1) + cap := by omega
        rw [he2, Nat.add_mod_right]
      have hstep : revRunStep cap front ((front + j) % cap) snap
          = (snap.getD ((front + j) % cap) none,
             RevGen.running cap front ((front + (j - 1)) % cap) snap) := by
        unfold revRunStep
        rw [if_neg hpr, hposnext]
      rw [hstep]
      dsimp only
      rw [ih (k0 + 1) (j - 1) (by omega) (by omega)]
      have hsucc : j + 1 = (j - 1 + 1) + 1 := by omega
      rw [hsucc, List.range_succ_eq_map (j - 1 + 1), List.map_cons, List.map_map]
      refine congrArg (List.cons _) ?_
      apply List.map_congr_left
      intro i hi
      have he : front + (j - 1 - i) = front + (j - (i + 1)) := by omega
      show snap.getD ((front + (j - 1 - i)) % cap) none
        = snap.getD ((front + (j - (i + 1))) % cap) none
      rw [he]

theorem reverse_map_range {β : Type} (n : Nat) (f : Nat → β) :
    ((List.range n).map f).reverse = (List.range n).map (fun i => f (n - 1 - i)) := by
  apply List.ext_getElem
  · simp
  · intro i h1 h2
    simp only [List.getElem_reverse, List.getElem_map, List.getElem_range,
      List.length_reverse, List.length_map, List.length_range]

theorem drain_toList (muts : Nat → CA α) (fuel : Nat) (h : Inv (muts 0))
    (hfuel : (muts 0).cnt ≤ fuel) :
    drainMut muts 0 IterGen.unstarted fuel = CA.toList (muts 0) := by
  obtain ⟨hcap, hlen, hcnt, hfront, hrear, hrel⟩ := h
  by_cases h0 : (muts 0).cnt = 0
  · unfold CA.toList
    rw [h0]
    cases fuel with
    | zero => rfl
    | succ n =>
      rw [drainMut_succ, iterNext_unstarted_zero (muts 0) (by omega)]
      rfl
  · rw [drainMut_start muts muts 0 0 fuel (by omega)]
    rw [if_neg h0] at hrel
    have hfr : (muts 0).front = ((muts 0).front + 0) % (muts 0).cap := by
      rw [Nat.add_zero, Nat.mod_eq_of_lt hfront]
    rw [hfr]
    rw [drainMut_running muts 0 (muts 0).cap (muts 0).cnt (muts 0).front (muts 0).rear
      (muts 0).data hcnt hfront hrel 0 fuel (by omega) (by omega)]
    unfold CA.toList
    rw [Nat.sub_zero]
    apply List.map_congr_left
    intro i hi
    show (muts 0).data.getD (((muts 0).front + (0 + i)) % (muts 0).cap) none
      = (muts 0).data.getD (((muts 0).front + i) % (muts 0).cap) none
    rw [Nat.zero_add]

theorem drainRev_toList (muts : Nat → CA α) (fuel : Nat) (h : Inv (muts 0))
    (hfuel : (muts 0).cnt ≤ fuel) :
    drainRevMut muts 0 RevGen.unstarted fuel = (CA.toList (muts 0)).reverse := by
  obtain ⟨hcap, hlen, hcnt, hfront, hrear, hrel⟩ := h
  by_cases h0 : (muts 0).cnt = 0
  · unfold CA.toList
    rw [h0]
    cases fuel with
    | zero => rfl
    | succ n =>
      rw [drainRevMut_succ, revNext_unstarted_zero (muts 0) (by omega)]
      rfl
  · rw [drainRevMut_start muts muts 0 0 fuel (by omega)]
    rw [if_neg h0] at hrel
    have hre : (muts 0).rear
        = ((muts 0).front + ((muts 0).cnt - 1)) % (muts 0).cap := by
      rw [hrel]
      congr 1
      omega
    rw [hre]
    rw [drainRevMut_running muts 0 (muts 0).cap (muts 0).cnt (muts 0).front
      (muts 0).data (by omega) hcnt hfront ((muts 0).cnt - 1) fuel (by omega) (by omega)]
    unfold CA.toList
    rw [reverse_map_range]
    have hr2 : (muts 0).cnt - 1 + 1 = (muts 0).cnt := by omega
    rw [hr2]

/-! Folds, equality and assorted wrappers. -/

theorem toList_length (c : CA α) : (CA.toList c).length = c.cnt := by
  unfold CA.toList
  simp

theorem toList_getD (c : CA α) (i : Nat) (hi : i < c.cnt) :
    (CA.toList c).getD i none = CA.logGet c i := by
  unfold CA.toList CA.logGet
  rw [List.getD_eq_getElem?_getD, List.getElem?_map, List.getElem?_range hi]
  rfl

theorem popld_snd (c : CA α) (dv : Option α) : (CA.popld c dv).2 = (CA.popl c).2 := by
  unfold CA.popld
  rcases CA.popl c with ⟨r, c1⟩
  cases r with
  | error e => rfl
  | ok d => rfl

theorem poprd_snd (c : CA α) (dv : Option α) : (CA.poprd c dv).2 = (CA.popr c).2 := by
  unfold CA.poprd
  rcases CA.popr c with ⟨r, c1⟩
  cases r with
  | error e => rfl
  | ok d => rfl

theorem cafPopld_snd (c : CAF α) (dv : Option α) :
    (CAF.popld c dv).2 = (CAF.popl c).2 := by
  unfold CAF.popld
  rcases CAF.popl c with ⟨r, c1⟩
  cases r with
  | error e => rfl
  | ok d => rfl

theorem cafPoprd_snd (c : CAF α) (dv : Option α) :
    (CAF.poprd c dv).2 = (CAF.popr c).2 := by
  unfold CAF.poprd
  rcases CAF.popr c with ⟨r, c1⟩
  cases r with
  | error e => rfl
  | ok d => rfl

theorem inv_rotl (c : CA α) (n : Int) (h : Inv c) : Inv (CA.rotl c n).2 := by
  unfold CA.rotl
  split
  · exact h
  · exact inv_rotlAux c n.toNat h

theorem inv_rotr (c : CA α) (n : Int) (h : Inv c) : Inv (CA.rotr c n).2 := by
  unfold CA.rotr
  split
  · exact h
  · exact inv_rotrAux c n.toNat h

theorem inv_poplt (c : CA α) (m : Int) (h : Inv c) : Inv (CA.poplt c m).2 :=
  inv_popltAux c m.toNat h

theorem inv_poprt (c : CA α) (m : Int) (h : Inv c) : Inv (CA.poprt c m).2 :=
  inv_poprtAux c m.toNat h

theorem inv_delItem (c : CA α) (idx : Int) (h : Inv c) : Inv (CA.delItem c idx).2 := by
  unfold CA.delItem
  split
  · exact inv_fromList _
  · split
    · exact inv_fromList _
    · exact h

theorem inv_mapCA {β : Type} (c : CA α) (fm : Option α → Option β) :
    Inv (CA.mapCA c fm) :=
  inv_fromList _

theorem cafFromList_cap (ds : List (Option α)) (capacity : Nat)
    (h2 : 2 ≤ capacity) (hlen : ds.length ≤ capacity) :
    (CAF.fromList ds capacity).cap = capacity := by
  unfold CAF.fromList
  by_cases h : ds.length = 0
  · rw [if_pos h]
    dsimp only
    omega
  · rw [if_neg h]
    dsimp only
    omega

theorem inv_mapCAF {β : Type} (cf : CAF α) (fm : Option α → Option β) (h : Inv cf) :
    Inv (CAF.mapCAF cf fm) ∧ (CAF.mapCAF cf fm).cap = cf.cap := by
  refine ⟨inv_cafFromList _ _, ?_⟩
  unfold CAF.mapCAF
  apply cafFromList_cap _ _ h.1
  rw [List.length_map, toList_length]
  exact h.2.2.1

theorem cafRotl_inv_cap (c : CAF α) (n : Int) (h : Inv c) :
    Inv (CAF.rotl c n).2 ∧ (CAF.rotl c n).2.cap = c.cap := by
  unfold CAF.rotl
  split
  · exact ⟨h, rfl⟩
  · exact cafRotlAux_inv_cap c n.toNat h

theorem cafRotr_inv_cap (c : CAF α) (n : Int) (h : Inv c) :
    Inv (CAF.rotr c n).2 ∧ (CAF.rotr c n).2.cap = c.cap := by
  unfold CAF.rotr
  split
  · exact ⟨h, rfl⟩
  · exact cafRotrAux_inv_cap c n.toNat h

theorem cafEmpty_inv_cap (c : CAF α) (h : Inv c) :
    Inv (CAF.emptyOp c) ∧ (CAF.emptyOp c).cap = c.cap := by
  refine ⟨?_, rfl⟩
  apply inv_mk
  · exact h.1
  · simp
  · omega
  · have := h.1
    omega
  · have := h.1
    omega
  · rw [if_pos rfl]
    omega

theorem foldl_none_spec (c : CA α) (f : Option α → Option α → Option α)
    (h : Inv c) (hpos : 0 < c.cnt) :
    CA.foldl c f none = .ok (((CA.toList c).tail).foldl f (CA.toList c).headI) := by
  unfold CA.foldl
  rw [if_neg (by omega)]
  rw [if_pos (by rfl)]
  obtain ⟨m, hm⟩ : ∃ m, c.cnt = m + 1 := ⟨c.cnt - 1, by omega⟩
  unfold CA.toList
  rw [hm, List.range_succ_eq_map, List.map_cons, List.tail_cons, List.headI_cons,
    List.map_map, List.foldl_map, Nat.add_sub_cancel]
  rfl

theorem foldr_none_spec (c : CA α) (f : Option α → Option α → Option α)
    (h : Inv c) (hpos : 0 < c.cnt) :
    CA.foldr c f none
      = .ok (((CA.toList c).dropLast).foldr f ((CA.toList c).getLastD none)) := by
  unfold CA.foldr
  rw [if_neg (by omega)]
  rw [if_pos (by rfl)]
  obtain ⟨m, hm⟩ : ∃ m, c.cnt = m + 1 := ⟨c.cnt - 1, by omega⟩
  unfold CA.toList
  rw [hm, List.range_succ, List.map_append]
  rw [show (List.map (fun i => c.data.getD ((c.front + i) % c.cap) none) [m])
      = [c.data.getD ((c.front + m) % c.cap) none] from rfl]
  rw [List.dropLast_concat, List.getLastD_concat, List.foldr_map, Nat.add_sub_cancel]

theorem cafFoldl_eq (c : CAF α) (f : Option α → Option α → Option α)
    (i0 : Option α) (hpos : 0 < c.cnt) :
    CAF.foldl c f i0 = CA.foldl c f i0 := by
  have h0 : ¬ c.cnt = 0 := by omega
  unfold CAF.foldl CA.foldl
  rw [if_neg h0, if_neg h0]

theorem cafFoldr_eq (c : CAF α) (f : Option α → Option α → Option α)
    (i0 : Option α) (hpos : 0 < c.cnt) :
    CAF.foldr c f i0 = CA.foldr c f i0 := by
  have h0 : ¬ c.cnt = 0 := by omega
  unfold CAF.foldr CA.foldr
  rw [if_neg h0, if_neg h0]

theorem caEq_of_parts [DecidableEq α] (x y : CA α) (hcnt : x.cnt = y.cnt)
    (h : ∀ i, i < y.cnt → CA.logGet x i = CA.logGet y i) : CA.caEq x y = true := by
  unfold CA.caEq
  rw [if_neg (by omega)]
  rw [List.all_eq_true]
  intro nn hnn
  have hi : nn < y.cnt := by
    rw [← hcnt]
    exact List.mem_range.mp hnn
  have := h nn hi
  unfold CA.logGet at this
  exact decide_eq_true this

/-! Claim theorems. -/

/-- C1 (counterexample): on the full buffer holding `[1, 2]`
(count = capacity = 2), a left-push of `0` doubles the capacity but the
element previously readable at logical index 0 (the value 1) is no longer at
index 0 afterward — the new element is.  So the claim that every element held
before the push remains retrievable at the same logical index fails for a
left-push. -/
theorem c1_growth_counterexample :
    (CA.pushr1 (CA.pushr1 (CA.fromList ([] : List (Option Nat))) (some 1)) (some 2)).cnt
      = (CA.pushr1 (CA.pushr1 (CA.fromList ([] : List (Option Nat))) (some 1)) (some 2)).cap
    ∧ CA.logGet (CA.pushl1 (CA.pushr1 (CA.pushr1 (CA.fromList ([] : List (Option Nat)))
        (some 1)) (some 2)) (some 0)) 0
      ≠ CA.logGet (CA.pushr1 (CA.pushr1 (CA.fromList ([] : List (Option Nat)))
        (some 1)) (some 2)) 0 := by
  decide

/-- C1 (amended): a push on either end of a full buffer doubles the capacity;
after a right-push every previously-held element is retrievable at the same
logical index, after a left-push at its old logical index plus one; and in
the wrapped layout (`front > rear`) the growth step produces exactly
`old[0:front] ++ emptySlots(capacity) ++ old[front:capacity]` with the new
front at `front + capacity`, `rear` unchanged and the capacity doubled. -/
theorem c1_growth (c : CA α) (d e : Option α) (hInv : Inv c) (hfull : c.cnt = c.cap) :
    (CA.pushr1 c d).cap = 2 * c.cap ∧
    (CA.pushl1 c e).cap = 2 * c.cap ∧
    (∀ i, i < c.cnt → CA.logGet (CA.pushr1 c d) i = CA.logGet c i) ∧
    (∀ i, i < c.cnt → CA.logGet (CA.pushl1 c e) (i + 1) = CA.logGet c i) ∧
    (c.rear < c.front →
      CA.doubleStorageCapacity c =
        ⟨c.data.take c.front ++ List.replicate c.cap none ++ c.data.drop c.front,
         c.cnt, 2 * c.cap, c.front + c.cap, c.rear⟩) := by
  obtain ⟨hr1, hr2⟩ := pushr1_full_spec c d hInv hfull
  obtain ⟨hl1, hl2⟩ := pushl1_full_spec c e hInv hfull
  refine ⟨hr1, hl1, hr2, hl2, ?_⟩
  intro hw
  unfold CA.doubleStorageCapacity
  rw [if_neg (by omega)]

theorem c1_growth_witness :
    (Inv wrappedFull ∧ wrappedFull.cnt = wrappedFull.cap) ∧
    ((CA.pushr1 wrappedFull (some 8)).cap = 2 * wrappedFull.cap ∧
     (CA.pushl1 wrappedFull (some 9)).cap = 2 * wrappedFull.cap ∧
     (∀ i, i < wrappedFull.cnt →
       CA.logGet (CA.pushr1 wrappedFull (some 8)) i = CA.logGet wrappedFull i) ∧
     (∀ i, i < wrappedFull.cnt →
       CA.logGet (CA.pushl1 wrappedFull (some 9)) (i + 1) = CA.logGet wrappedFull i) ∧
     (wrappedFull.rear < wrappedFull.front →
       CA.doubleStorageCapacity wrappedFull =
         ⟨wrappedFull.data.take wrappedFull.front
            ++ List.replicate wrappedFull.cap none
            ++ wrappedFull.data.drop wrappedFull.front,
          wrappedFull.cnt, 2 * wrappedFull.cap,
          wrappedFull.front + wrappedFull.cap, wrappedFull.rear⟩)) :=
  ⟨⟨by decide, by decide⟩,
   c1_growth wrappedFull (some 8) (some 9) (by decide) (by decide)⟩

/-- C2 (counterexample): the generator body of `__iter__` does not run when
the traversal is called; the snapshot is taken at the first advance.  Here
the traversal is called while the buffer holds `[1]`; the caller then pushes
`2` before requesting the first element, and the traversal yields `[1, 2]`,
not the buffer's logical sequence `[1]` as of the call.  So the capture does
not happen at call time. -/
theorem c2_traversal_counterexample :
    drainMut (fun _ => CA.pushr1 (CA.fromList [some 1]) (some 2)) 0
        IterGen.unstarted 5
      ≠ CA.toList (CA.fromList ([some 1] : List (Option Nat))) := by
  decide

/-- C2 (amended): a forward or reverse traversal of either class captures
`capacity`, `front`, `rear` and a copy of the slot array at the start of
iteration (the first advance of the generator, here step 0), and then yields
exactly the buffer's logical element sequence as of that capture — front to
rear forward, rear to front reversed — unaffected by any mutation the caller
performs on the live buffer at any later step (`muts` gives the live buffer
at every step and is arbitrary after step 0).  Both classes share this
generator body. -/
theorem c2_traversal_snapshot (muts : Nat → CA α) (fuel : Nat)
    (hInv : Inv (muts 0)) (hfuel : (muts 0).cnt ≤ fuel) :
    drainMut muts 0 IterGen.unstarted fuel = CA.toList (muts 0) ∧
    drainRevMut muts 0 RevGen.unstarted fuel = (CA.toList (muts 0)).reverse :=
  ⟨drain_toList muts fuel hInv hfuel, drainRev_toList muts fuel hInv hfuel⟩

theorem c2_traversal_snapshot_witness :
    (Inv (mutsSample 0) ∧ (mutsSample 0).cnt ≤ 5) ∧
    (drainMut mutsSample 0 IterGen.unstarted 5 = CA.toList (mutsSample 0) ∧
     drainRevMut mutsSample 0 RevGen.unstarted 5 = (CA.toList (mutsSample 0)).reverse) :=
  ⟨⟨by decide, by decide⟩, c2_traversal_snapshot mutsSample 5 (by decide) (by decide)⟩

/-- C3: resizing with the default minimum capacity (plain compaction)
produces, for `count = 0`, capacity 2 with `front = 0`, `rear = 1`; for
`count = 1`, capacity 3 with the single element at slot 1 and
`front = rear = 1`; for `count >= 2`, capacity `count + 2` with the element
block at slots `1 .. count`, `front = 1` and `rear = count` — and in every
case the logical element sequence is preserved. -/
theorem c3_compaction (c : CA α) (hInv : Inv c) :
    CA.toList (CA.resize c 2) = CA.toList c ∧
    (c.cnt = 0 → CA.resize c 2 = ⟨[none, none], 0, 2, 0, 1⟩) ∧
    (c.cnt = 1 → CA.resize c 2 = ⟨[none, CA.logGet c 0, none], 1, 3, 1, 1⟩) ∧
    (2 ≤ c.cnt → (CA.resize c 2).cap = c.cnt + 2 ∧ (CA.resize c 2).front = 1 ∧
      (CA.resize c 2).rear = c.cnt ∧
      ∀ i, i < c.cnt → (CA.resize c 2).data.getD (1 + i) none = CA.logGet c i) := by
  rw [resize_default c hInv]
  refine ⟨toList_compact c hInv, ?_, ?_, ?_⟩
  · intro h0
    exact compact_zero c h0
  · intro h1
    rw [logGet_zero c hInv]
    exact compact_one c h1
  · intro h2
    obtain ⟨a1, a2, a3, a4, a5, a6, -, -⟩ := compact_big c hInv h2
    exact ⟨a1, a3, a4, a6⟩

theorem c3_compaction_witness :
    Inv wrappedFull ∧
    (CA.toList (CA.resize wrappedFull 2) = CA.toList wrappedFull ∧
     (wrappedFull.cnt = 0 → CA.resize wrappedFull 2 = ⟨[none, none], 0, 2, 0, 1⟩) ∧
     (wrappedFull.cnt = 1 →
       CA.resize wrappedFull 2 = ⟨[none, CA.logGet wrappedFull 0, none], 1, 3, 1, 1⟩) ∧
     (2 ≤ wrappedFull.cnt →
       (CA.resize wrappedFull 2).cap = wrappedFull.cnt + 2 ∧
       (CA.resize wrappedFull 2).front = 1 ∧
       (CA.resize wrappedFull 2).rear = wrappedFull.cnt ∧
       ∀ i, i < wrappedFull.cnt →
         (CA.resize wrappedFull 2).data.getD (1 + i) none = CA.logGet wrappedFull i)) :=
  ⟨by decide, c3_compaction wrappedFull (by decide)⟩

/-- C5: pushing on a full fixed-capacity buffer (`count = capacity`) fails
with the capacity-exceeded error and returns the receiver completely
unchanged — the check precedes every write, so no field and no slot is
touched. -/
theorem c5_fixed_full_push (c : CAF α) (d e : Option α) (hfull : c.cnt = c.cap) :
    CAF.pushl c d = (.error "Method pushl called on a full CAF", c) ∧
    CAF.pushr c e = (.error "Method pushr called on a full CAF", c) :=
  ⟨cafPushl_full c d hfull, cafPushr_full c e hfull⟩

theorem c5_fixed_full_push_witness :
    (CAF.fromList [some 1, some 2] 2 : CAF Nat).cnt
      = (CAF.fromList [some 1, some 2] 2 : CAF Nat).cap ∧
    (CAF.pushl (CAF.fromList [some 1, some 2] 2) (some 3)
        = (.error "Method pushl called on a full CAF", CAF.fromList [some 1, some 2] 2) ∧
     CAF.pushr (CAF.fromList [some 1, some 2] 2) (some 4)
        = (.error "Method pushr called on a full CAF", CAF.fromList [some 1, some 2] 2)) :=
  ⟨by decide, c5_fixed_full_push (CAF.fromList [some 1, some 2] 2) (some 3) (some 4) (by decide)⟩

/-- C6: for either class, popping a singleton buffer returns its single
element and leaves the canonical empty state (the slot cleared,
`front = 0`, `rear = capacity - 1`, `count = 0`); and a push into an empty
buffer of either class yields `front = rear` with `count = 1`. -/
theorem c6_singleton_pop_empty_push (c e : CA α) (d d2 : Option α)
    (hInv : Inv c) (h1 : c.cnt = 1) (hInvE : Inv e) (h0 : e.cnt = 0) :
    CA.popl c = (.ok (CA.logGet c 0),
      ⟨c.data.set c.front none, 0, c.cap, 0, c.cap - 1⟩) ∧
    CA.popr c = (.ok (CA.logGet c 0),
      ⟨c.data.set c.front none, 0, c.cap, 0, c.cap - 1⟩) ∧
    CAF.popl c = (.ok (CA.logGet c 0),
      ⟨c.data.set c.front none, 0, c.cap, 0, c.cap - 1⟩) ∧
    CAF.popr c = (.ok (CA.logGet c 0),
      ⟨c.data.set c.front none, 0, c.cap, 0, c.cap - 1⟩) ∧
    ((CA.pushr1 e d).cnt = 1 ∧ (CA.pushr1 e d).front = (CA.pushr1 e d).rear) ∧
    ((CA.pushl1 e d).cnt = 1 ∧ (CA.pushl1 e d).front = (CA.pushl1 e d).rear) ∧
    ((CAF.pushr e d2).2.cnt = 1 ∧ (CAF.pushr e d2).2.front = (CAF.pushr e d2).2.rear) ∧
    ((CAF.pushl e d2).2.cnt = 1 ∧ (CAF.pushl e d2).2.front = (CAF.pushl e d2).2.rear) := by
  have hlg := logGet_zero c hInv
  have hcapE : 2 ≤ e.cap := hInvE.1
  obtain ⟨hf0, hr0⟩ := inv_empty_canon e hInvE h0
  have hcapsum : e.cap - 1 + 1 = e.cap := by omega
  refine ⟨?_, ?_, ?_, ?_, ?_, ?_, ?_, ?_⟩
  · rw [hlg]
    unfold CA.popl
    rw [if_neg (by omega), if_pos h1]
  · rw [hlg]
    unfold CA.popr
    rw [if_neg (by omega), if_pos h1]
  · rw [hlg]
    unfold CAF.popl
    rw [if_neg (by omega), if_pos h1]
  · rw [hlg]
    unfold CAF.popr
    rw [if_neg (by omega), if_pos h1]
  · rw [pushr1_notfull e d (by omega)]
    refine ⟨by show e.cnt + 1 = 1; omega, ?_⟩
    show e.front = (e.rear + 1) % e.cap
    rw [hf0, hr0, hcapsum, Nat.mod_self]
  · rw [pushl1_notfull e d (by omega)]
    refine ⟨by show e.cnt + 1 = 1; omega, ?_⟩
    show (e.front + e.cap - 1) % e.cap = e.rear
    rw [hf0, hr0, Nat.mod_eq_of_lt (by omega)]
    omega
  · rw [cafPushr_notfull e d2 (by omega), pushr1_notfull e d2 (by omega)]
    refine ⟨by show e.cnt + 1 = 1; omega, ?_⟩
    show e.front = (e.rear + 1) % e.cap
    rw [hf0, hr0, hcapsum, Nat.mod_self]
  · rw [cafPushl_notfull e d2 (by omega), pushl1_notfull e d2 (by omega)]
    refine ⟨by show e.cnt + 1 = 1; omega, ?_⟩
    show (e.front + e.cap - 1) % e.cap = e.rear
    rw [hf0, hr0, Nat.mod_eq_of_lt (by omega)]
    omega

theorem c6_singleton_pop_empty_push_witness :
    (Inv (CA.fromList [some 5]) ∧ (CA.fromList ([some 5] : List (Option Nat))).cnt = 1 ∧
     Inv (CA.fromList ([] : List (Option Nat))) ∧
     (CA.fromList ([] : List (Option Nat))).cnt = 0) ∧
    (CA.popl (CA.fromList [some 5]) = (.ok (CA.logGet (CA.fromList [some 5]) 0),
      ⟨(CA.fromList ([some 5] : List (Option Nat))).data.set
          (CA.fromList ([some 5] : List (Option Nat))).front none, 0,
        (CA.fromList ([some 5] : List (Option Nat))).cap, 0,
        (CA.fromList ([some 5] : List (Option Nat))).cap - 1⟩) ∧
     CA.popr (CA.fromList [some 5]) = (.ok (CA.logGet (CA.fromList [some 5]) 0),
      ⟨(CA.fromList ([some 5] : List (Option Nat))).data.set
          (CA.fromList ([some 5] : List (Option Nat))).front none, 0,
        (CA.fromList ([some 5] : List (Option Nat))).cap, 0,
        (CA.fromList ([some 5] : List (Option Nat))).cap - 1⟩) ∧
     CAF.popl (CA.fromList [some 5]) = (.ok (CA.logGet (CA.fromList [some 5]) 0),
      ⟨(CA.fromList ([some 5] : List (Option Nat))).data.set
          (CA.fromList ([some 5] : List (Option Nat))).front none, 0,
        (CA.fromList ([some 5] : List (Option Nat))).cap, 0,
        (CA.fromList ([some 5] : List (Option Nat))).cap - 1⟩) ∧
     CAF.popr (CA.fromList [some 5]) = (.ok (CA.logGet (CA.fromList [some 5]) 0),
      ⟨(CA.fromList ([some 5] : List (Option Nat))).data.set
          (CA.fromList ([some 5] : List (Option Nat))).front none, 0,
        (CA.fromList ([some 5] : List (Option Nat))).cap, 0,
        (CA.fromList ([some 5] : List (Option Nat))).cap - 1⟩) ∧
     ((CA.pushr1 (CA.fromList []) (some 6)).cnt = 1 ∧
      (CA.pushr1 (CA.fromList []) (some 6)).front
        = (CA.pushr1 (CA.fromList ([] : List (Option Nat))) (some 6)).rear) ∧
     ((CA.pushl1 (CA.fromList []) (some 6)).cnt = 1 ∧
      (CA.pushl1 (CA.fromList []) (some 6)).front
        = (CA.pushl1 (CA.fromList ([] : List (Option Nat))) (some 6)).rear) ∧
     ((CAF.pushr (CA.fromList []) (some 7)).2.cnt = 1 ∧
      (CAF.pushr (CA.fromList []) (some 7)).2.front
        = (CAF.pushr (CA.fromList ([] : List (Option Nat))) (some 7)).2.rear) ∧
     ((CAF.pushl (CA.fromList []) (some 7)).2.cnt = 1 ∧
      (CAF.pushl (CA.fromList []) (some 7)).2.front
        = (CAF.pushl (CA.fromList ([] : List (Option Nat))) (some 7)).2.rear)) :=
  ⟨⟨by decide, by decide, by decide, by decide⟩,
   c6_singleton_pop_empty_push (CA.fromList [some 5]) (CA.fromList []) (some 6) (some 7)
     (by decide) (by decide) (by decide) (by decide)⟩

/-- C7: on a non-empty buffer of either class, a valid nonnegative index `i`
and the negative index `i - count` read the same element (the physical slots
coincide), and any index outside `[-count, count)` fails with the
out-of-range error naming the index and the valid range. -/
theorem c7_index_symmetry (c : CA α) (i j : Int) (hInv : Inv c) (hpos : 0 < c.cnt)
    (hi0 : 0 ≤ i) (hi1 : i < (c.cnt : Int))
    (hj : j < -(c.cnt : Int) ∨ (c.cnt : Int) ≤ j) :
    (CA.getItem c i = CA.getItem c (i - c.cnt) ∧
     CAF.getItem c i = CAF.getItem c (i - c.cnt)) ∧
    (CA.getItem c j = .error (CA.getOobMsg j c.cnt) ∧
     CAF.getItem c j = .error (CAF.getOobMsg j c.cnt)) := by
  have hslot : (((c.front + c.cnt : Int) + (i - c.cnt)).toNat) % c.cap
      = (c.front + i.toNat) % c.cap := by
    congr 1
    omega
  refine ⟨⟨?_, ?_⟩, ?_, ?_⟩
  · unfold CA.getItem
    rw [if_pos ⟨hi0, hi1⟩, if_neg (by omega), if_pos ⟨by omega, by omega⟩, hslot]
  · unfold CAF.getItem
    rw [if_pos ⟨hi0, hi1⟩, if_neg (by omega), if_pos ⟨by omega, by omega⟩, hslot]
  · unfold CA.getItem
    rw [if_neg (by omega), if_neg (by omega), if_neg (by omega)]
  · unfold CAF.getItem
    rw [if_neg (by omega), if_neg (by omega), if_neg (by omega)]

theorem c7_index_symmetry_witness :
    (Inv (CA.fromList [some 1, some 2, some 3]) ∧
     0 < (CA.fromList ([some 1, some 2, some 3] : List (Option Nat))).cnt ∧
     (0 : Int) ≤ 1 ∧
     (1 : Int) < ((CA.fromList ([some 1, some 2, some 3] : List (Option Nat))).cnt : Int) ∧
     ((5 : Int) < -((CA.fromList ([some 1, some 2, some 3] : List (Option Nat))).cnt : Int) ∨
      ((CA.fromList ([some 1, some 2, some 3] : List (Option Nat))).cnt : Int) ≤ (5 : Int))) ∧
    ((CA.getItem (CA.fromList [some 1, some 2, some 3]) 1
        = CA.getItem (CA.fromList [some 1, some 2, some 3])
            (1 - (CA.fromList ([some 1, some 2, some 3] : List (Option Nat))).cnt) ∧
      CAF.getItem (CA.fromList [some 1, some 2, some 3]) 1
        = CAF.getItem (CA.fromList [some 1, some 2, some 3])
            (1 - (CA.fromList ([some 1, some 2, some 3] : List (Option Nat))).cnt)) ∧
     (CA.getItem (CA.fromList [some 1, some 2, some 3]) 5
        = .error (CA.getOobMsg 5 (CA.fromList ([some 1, some 2, some 3] : List (Option Nat))).cnt) ∧
      CAF.getItem (CA.fromList [some 1, some 2, some 3]) 5
        = .error (CAF.getOobMsg 5 (CA.fromList ([some 1, some 2, some 3] : List (Option Nat))).cnt))) :=
  ⟨⟨by decide, by decide, by decide, by decide, by decide⟩,
   c7_index_symmetry (CA.fromList [some 1, some 2, some 3]) 1 5
     (by decide) (by decide) (by decide) (by decide) (by decide)⟩

/-- C9: `foldl`/`foldr` of either class cannot tell an explicitly supplied
`None` from an absent start value (both arrive as the same runtime value,
modelled as `none`): on an empty buffer the call raises the empty-buffer
error rather than returning `None`, and on a non-empty buffer the supplied
`None` is ignored and the accumulator is seeded from the first element
(`foldl`) or the last element (`foldr`). -/
theorem c9_fold_none (c : CA α) (cf : CAF α)
    (f g f2 g2 : Option α → Option α → Option α)
    (hInv : Inv c) (hInvF : Inv cf) :
    (c.cnt = 0 →
      CA.foldl c f none
        = .error "Method foldl called on an empty CA without a start item." ∧
      CA.foldr c g none
        = .error "Method foldr called on empty CA without initial value.") ∧
    (0 < c.cnt →
      CA.foldl c f none = .ok (((CA.toList c).tail).foldl f (CA.toList c).headI) ∧
      CA.foldr c g none
        = .ok (((CA.toList c).dropLast).foldr g ((CA.toList c).getLastD none))) ∧
    (cf.cnt = 0 →
      CAF.foldl cf f2 none
        = .error "Method foldl called on an empty CAF without an initial value." ∧
      CAF.foldr cf g2 none
        = .error "Method foldr called on empty CAF without initial value.") ∧
    (0 < cf.cnt →
      CAF.foldl cf f2 none = .ok (((CA.toList cf).tail).foldl f2 (CA.toList cf).headI) ∧
      CAF.foldr cf g2 none
        = .ok (((CA.toList cf).dropLast).foldr g2 ((CA.toList cf).getLastD none))) := by
  refine ⟨?_, ?_, ?_, ?_⟩
  · intro h0
    constructor
    · unfold CA.foldl
      rw [if_pos h0]
      rfl
    · unfold CA.foldr
      rw [if_pos h0]
      rfl
  · intro hpos
    exact ⟨foldl_none_spec c f hInv hpos, foldr_none_spec c g hInv hpos⟩
  · intro h0
    constructor
    · unfold CAF.foldl
      rw [if_pos h0]
      rfl
    · unfold CAF.foldr
      rw [if_pos h0]
      rfl
  · intro hpos
    rw [cafFoldl_eq cf f2 none hpos, cafFoldr_eq cf g2 none hpos]
    exact ⟨foldl_none_spec cf f2 hInvF hpos, foldr_none_spec cf g2 hInvF hpos⟩

theorem c9_fold_none_witness :
    (Inv (CA.fromList [some 1, some 2]) ∧ Inv fixedSample) ∧
    (((CA.fromList ([some 1, some 2] : List (Option Nat))).cnt = 0 →
      CA.foldl (CA.fromList [some 1, some 2]) (fun a b => a) none
        = .error "Method foldl called on an empty CA without a start item." ∧
      CA.foldr (CA.fromList [some 1, some 2]) (fun a b => b) none
        = .error "Method foldr called on empty CA without initial value.") ∧
     (0 < (CA.fromList ([some 1, some 2] : List (Option Nat))).cnt →
      CA.foldl (CA.fromList [some 1, some 2]) (fun a b => a) none
        = .ok (((CA.toList (CA.fromList [some 1, some 2])).tail).foldl (fun a b => a)
            (CA.toList (CA.fromList [some 1, some 2])).headI) ∧
      CA.foldr (CA.fromList [some 1, some 2]) (fun a b => b) none
        = .ok (((CA.toList (CA.fromList [some 1, some 2])).dropLast).foldr (fun a b => b)
            ((CA.toList (CA.fromList [some 1, some 2])).getLastD none))) ∧
     (fixedSample.cnt = 0 →
      CAF.foldl fixedSample (fun a b => a) none
        = .error "Method foldl called on an empty CAF without an initial value." ∧
      CAF.foldr fixedSample (fun a b => b) none
        = .error "Method foldr called on empty CAF without initial value.") ∧
     (0 < fixedSample.cnt →
      CAF.foldl fixedSample (fun a b => a) none
        = .ok (((CA.toList fixedSample).tail).foldl (fun a b => a)
            (CA.toList fixedSample).headI) ∧
      CAF.foldr fixedSample (fun a b => b) none
        = .ok (((CA.toList fixedSample).dropLast).foldr (fun a b => b)
            ((CA.toList fixedSample).getLastD none)))) :=
  ⟨⟨by decide, by decide⟩,
   c9_fold_none (CA.fromList [some 1, some 2]) fixedSample
     (fun a b => a) (fun a b => b) (fun a b => a) (fun a b => b)
     (by decide) (by decide)⟩

/-- C10: for either class, the bulk pops with a non-positive maximum return
the empty tuple and leave the buffer untouched — the while condition
`maximum > 0` fails before the first pop. -/
theorem c10_nonpositive_bulk_pop (c : CA α) (cf : CAF α) (m1 m2 m3 m4 : Int)
    (h1 : m1 ≤ 0) (h2 : m2 ≤ 0) (h3 : m3 ≤ 0) (h4 : m4 ≤ 0) :
    CA.poplt c m1 = ([], c) ∧ CA.poprt c m2 = ([], c) ∧
    CAF.poplt cf m3 = ([], cf) ∧ CAF.poprt cf m4 = ([], cf) := by
  unfold CA.poplt CA.poprt CAF.poplt CAF.poprt
  rw [Int.toNat_of_nonpos h1, Int.toNat_of_nonpos h2, Int.toNat_of_nonpos h3,
    Int.toNat_of_nonpos h4]
  exact ⟨rfl, rfl, rfl, rfl⟩

theorem c10_nonpositive_bulk_pop_witness :
    ((0 : Int) ≤ 0 ∧ (-3 : Int) ≤ 0 ∧ (0 : Int) ≤ 0 ∧ (-7 : Int) ≤ 0) ∧
    (CA.poplt wrappedFull 0 = ([], wrappedFull) ∧
     CA.poprt wrappedFull (-3) = ([], wrappedFull) ∧
     CAF.poplt fixedSample 0 = ([], fixedSample) ∧
     CAF.poprt fixedSample (-7) = ([], fixedSample)) :=
  ⟨⟨by decide, by decide, by decide, by decide⟩,
   c10_nonpositive_bulk_pop wrappedFull fixedSample 0 (-3) 0 (-7)
     (by decide) (by decide) (by decide) (by decide)⟩

/-- C8: evaluating the printable representation through the class's
construction function (`ca(...)` rebuilt from the iteration sequence for the
auto class, `caf(...)` with the default capacity for the fixed class)
produces a buffer equal to the original under the class's own equality
(equal counts, elementwise equal logical sequences), and — since the
construction allocates a fresh object, modelled by an allocation identity
never used before — the parsed object is a distinct instance. -/
theorem c8_repr_roundtrip [DecidableEq α] (b bf : Obj α) (fresh freshf : Nat)
    (hInv : Inv b.st) (hFresh : b.id < fresh)
    (hInvF : Inv bf.st) (hFreshF : bf.id < freshf) :
    (CA.caEq (parseRepr b fresh).st b.st = true ∧ (parseRepr b fresh).id ≠ b.id) ∧
    (CA.caEq (parseReprF bf freshf).st bf.st = true ∧ (parseReprF bf freshf).id ≠ bf.id) := by
  refine ⟨⟨?_, by show fresh ≠ b.id; omega⟩, ⟨?_, by show freshf ≠ bf.id; omega⟩⟩
  · apply caEq_of_parts
    · show (CA.fromList (CA.toList b.st)).cnt = b.st.cnt
      rw [cnt_fromList, toList_length]
    · intro i hi
      show CA.logGet (CA.fromList (CA.toList b.st)) i = CA.logGet b.st i
      rw [logGet_fromList _ i (by rw [toList_length]; exact hi), toList_getD b.st i hi]
  · apply caEq_of_parts
    · show (CAF.fromList (CA.toList bf.st) 2).cnt = bf.st.cnt
      rw [cafFromList_cnt, toList_length]
    · intro i hi
      show CA.logGet (CAF.fromList (CA.toList bf.st) 2) i = CA.logGet bf.st i
      rw [logGet_cafFromList _ 2 i (by rw [toList_length]; exact hi),
        toList_getD bf.st i hi]

theorem c8_repr_roundtrip_witness :
    (Inv (Obj.mk 0 wrappedFull).st ∧ (Obj.mk 0 wrappedFull).id < 1 ∧
     Inv (Obj.mk 3 fixedSample).st ∧ (Obj.mk 3 fixedSample).id < 7) ∧
    ((CA.caEq (parseRepr (Obj.mk 0 wrappedFull) 1).st (Obj.mk 0 wrappedFull).st = true ∧
      (parseRepr (Obj.mk 0 wrappedFull) 1).id ≠ (Obj.mk 0 wrappedFull).id) ∧
     (CA.caEq (parseReprF (Obj.mk 3 fixedSample) 7).st (Obj.mk 3 fixedSample).st = true ∧
      (parseReprF (Obj.mk 3 fixedSample) 7).id ≠ (Obj.mk 3 fixedSample).id)) :=
  ⟨⟨by decide, by decide, by decide, by decide⟩,
   c8_repr_roundtrip (Obj.mk 0 wrappedFull) (Obj.mk 3 fixedSample) 1 7
     (by decide) (by decide) (by decide) (by decide)⟩

/-- C4: every modelled public operation preserves the state invariants — for
the auto-resizing class: capacity at least 2, count at most capacity, a
singleton has `front = rear`, a non-wrapped region is contiguous with
`rear - front + 1 = count`, a wrapped region splits as
`(capacity - front) + (rear + 1) = count` (all packaged in `ClaimInv`, with
the full machine invariant `Inv` alongside) — and the fixed-capacity class
preserves the same layout invariants with its capacity unchanged by every
operation. -/
theorem c4_invariants {β : Type} (c : CA α) (cf : CAF α) (d v dv : Option α)
    (fm : Option α → Option β) (xs : List (Option α))
    (idx n maxi : Int) (minCap capF : Nat)
    (hInv : Inv c) (hInvF : Inv cf) :
    (Inv (CA.fromList xs) ∧ ClaimInv (CA.fromList xs)) ∧
    (Inv (CA.pushr1 c d) ∧ ClaimInv (CA.pushr1 c d)) ∧
    (Inv (CA.pushl1 c d) ∧ ClaimInv (CA.pushl1 c d)) ∧
    (Inv (CA.popl c).2 ∧ ClaimInv (CA.popl c).2) ∧
    (Inv (CA.popr c).2 ∧ ClaimInv (CA.popr c).2) ∧
    (Inv (CA.popld c dv).2 ∧ ClaimInv (CA.popld c dv).2) ∧
    (Inv (CA.poprd c dv).2 ∧ ClaimInv (CA.poprd c dv).2) ∧
    (Inv (CA.poplt c maxi).2 ∧ ClaimInv (CA.poplt c maxi).2) ∧
    (Inv (CA.poprt c maxi).2 ∧ ClaimInv (CA.poprt c maxi).2) ∧
    (Inv (CA.rotl c n).2 ∧ ClaimInv (CA.rotl c n).2) ∧
    (Inv (CA.rotr c n).2 ∧ ClaimInv (CA.rotr c n).2) ∧
    (Inv (CA.setItem c idx v).2 ∧ ClaimInv (CA.setItem c idx v).2) ∧
    (Inv (CA.delItem c idx).2 ∧ ClaimInv (CA.delItem c idx).2) ∧
    (Inv (CA.emptyOp c) ∧ ClaimInv (CA.emptyOp c)) ∧
    (Inv (CA.resize c minCap) ∧ ClaimInv (CA.resize c minCap)) ∧
    (Inv (CA.mapCA c fm) ∧ ClaimInv (CA.mapCA c fm)) ∧
    (Inv (CAF.fromList xs capF) ∧ ClaimInv (CAF.fromList xs capF)) ∧
    (Inv (CAF.pushr cf d).2 ∧ ClaimInv (CAF.pushr cf d).2 ∧
      (CAF.pushr cf d).2.cap = cf.cap) ∧
    (Inv (CAF.pushl cf d).2 ∧ ClaimInv (CAF.pushl cf d).2 ∧
      (CAF.pushl cf d).2.cap = cf.cap) ∧
    (Inv (CAF.popl cf).2 ∧ ClaimInv (CAF.popl cf).2 ∧ (CAF.popl cf).2.cap = cf.cap) ∧
    (Inv (CAF.popr cf).2 ∧ ClaimInv (CAF.popr cf).2 ∧ (CAF.popr cf).2.cap = cf.cap) ∧
    (Inv (CAF.popld cf dv).2 ∧ ClaimInv (CAF.popld cf dv).2 ∧
      (CAF.popld cf dv).2.cap = cf.cap) ∧
    (Inv (CAF.poprd cf dv).2 ∧ ClaimInv (CAF.poprd cf dv).2 ∧
      (CAF.poprd cf dv).2.cap = cf.cap) ∧
    (Inv (CAF.poplt cf maxi).2 ∧ ClaimInv (CAF.poplt cf maxi).2 ∧
      (CAF.poplt cf maxi).2.cap = cf.cap) ∧
    (Inv (CAF.poprt cf maxi).2 ∧ ClaimInv (CAF.poprt cf maxi).2 ∧
      (CAF.poprt cf maxi).2.cap = cf.cap) ∧
    (Inv (CAF.rotl cf n).2 ∧ ClaimInv (CAF.rotl cf n).2 ∧
      (CAF.rotl cf n).2.cap = cf.cap) ∧
    (Inv (CAF.rotr cf n).2 ∧ ClaimInv (CAF.rotr cf n).2 ∧
      (CAF.rotr cf n).2.cap = cf.cap) ∧
    (Inv (CAF.setItem cf idx v).2 ∧ ClaimInv (CAF.setItem cf idx v).2 ∧
      (CAF.setItem cf idx v).2.cap = cf.cap) ∧
    (Inv (CAF.emptyOp cf) ∧ ClaimInv (CAF.emptyOp cf) ∧ (CAF.emptyOp cf).cap = cf.cap) ∧
    (Inv (CAF.mapCAF cf fm) ∧ ClaimInv (CAF.mapCAF cf fm) ∧
      (CAF.mapCAF cf fm).cap = cf.cap) := by
  have P : ∀ {γ : Type} (x : CA γ), Inv x → Inv x ∧ ClaimInv x :=
    fun x hx => ⟨hx, inv_claimInv x hx⟩
  have Q : ∀ {γ : Type} (x : CA γ) (k : Nat), Inv x ∧ x.cap = k →
      Inv x ∧ ClaimInv x ∧ x.cap = k :=
    fun x k pr => ⟨pr.1, inv_claimInv x pr.1, pr.2⟩
  refine ⟨P _ (inv_fromList xs),
    P _ (inv_pushr1 c d hInv),
    P _ (inv_pushl1 c d hInv),
    P _ (inv_popl c hInv),
    P _ (inv_popr c hInv),
    P _ (by rw [popld_snd]; exact inv_popl c hInv),
    P _ (by rw [poprd_snd]; exact inv_popr c hInv),
    P _ (inv_poplt c maxi hInv),
    P _ (inv_poprt c maxi hInv),
    P _ (inv_rotl c n hInv),
    P _ (inv_rotr c n hInv),
    P _ (inv_setItem c idx v hInv),
    P _ (inv_delItem c idx hInv),
    P _ (inv_emptyCA c hInv.1),
    P _ (inv_resize c minCap hInv),
    P _ (inv_mapCA c fm),
    P _ (inv_cafFromList xs capF),
    Q _ _ (cafPushr_inv_cap cf d hInvF),
    Q _ _ (cafPushl_inv_cap cf d hInvF),
    Q _ _ (cafPopl_inv_cap cf hInvF),
    Q _ _ (cafPopr_inv_cap cf hInvF),
    Q _ _ (by rw [cafPopld_snd]; exact cafPopl_inv_cap cf hInvF),
    Q _ _ (by rw [cafPoprd_snd]; exact cafPopr_inv_cap cf hInvF),
    Q _ _ (by unfold CAF.poplt; exact cafPopltAux_inv_cap cf maxi.toNat hInvF),
    Q _ _ (by unfold CAF.poprt; exact cafPoprtAux_inv_cap cf maxi.toNat hInvF),
    Q _ _ (cafRotl_inv_cap cf n hInvF),
    Q _ _ (cafRotr_inv_cap cf n hInvF),
    Q _ _ (cafSetItem_inv_cap cf idx v hInvF),
    Q _ _ (cafEmpty_inv_cap cf hInvF),
    Q _ _ (inv_mapCAF cf fm hInvF)⟩

theorem c4_invariants_witness :
    (Inv wrappedFull ∧ Inv fixedSample) ∧
    ((Inv (CA.fromList [some 1, none]) ∧ ClaimInv (CA.fromList [some 1, none])) ∧
    (Inv (CA.pushr1 wrappedFull (some 9)) ∧ ClaimInv (CA.pushr1 wrappedFull (some 9))) ∧
    (Inv (CA.pushl1 wrappedFull (some 9)) ∧ ClaimInv (CA.pushl1 wrappedFull (some 9))) ∧
    (Inv (CA.popl wrappedFull).2 ∧ ClaimInv (CA.popl wrappedFull).2) ∧
    (Inv (CA.popr wrappedFull).2 ∧ ClaimInv (CA.popr wrappedFull).2) ∧
    (Inv (CA.popld wrappedFull none).2 ∧ ClaimInv (CA.popld wrappedFull none).2) ∧
    (Inv (CA.poprd wrappedFull none).2 ∧ ClaimInv (CA.poprd wrappedFull none).2) ∧
    (Inv (CA.poplt wrappedFull (3 : Int)).2 ∧ ClaimInv (CA.poplt wrappedFull (3 : Int)).2) ∧
    (Inv (CA.poprt wrappedFull (3 : Int)).2 ∧ ClaimInv (CA.poprt wrappedFull (3 : Int)).2) ∧
    (Inv (CA.rotl wrappedFull (2 : Int)).2 ∧ ClaimInv (CA.rotl wrappedFull (2 : Int)).2) ∧
    (Inv (CA.rotr wrappedFull (2 : Int)).2 ∧ ClaimInv (CA.rotr wrappedFull (2 : Int)).2) ∧
    (Inv (CA.setItem wrappedFull (1 : Int) (some 8)).2 ∧ ClaimInv (CA.setItem wrappedFull (1 : Int) (some 8)).2) ∧
    (Inv (CA.delItem wrappedFull (1 : Int)).2 ∧ ClaimInv (CA.delItem wrappedFull (1 : Int)).2) ∧
    (Inv (CA.emptyOp wrappedFull) ∧ ClaimInv (CA.emptyOp wrappedFull)) ∧
    (Inv (CA.resize wrappedFull 9) ∧ ClaimInv (CA.resize wrappedFull 9)) ∧
    (Inv (CA.mapCA wrappedFull (fun x => x : Option Nat → Option Nat)) ∧ ClaimInv (CA.mapCA wrappedFull (fun x => x : Option Nat → Option Nat))) ∧
    (Inv (CAF.fromList [some 1, none] 5) ∧ ClaimInv (CAF.fromList [some 1, none] 5)) ∧
    (Inv (CAF.pushr fixedSample (some 9)).2 ∧ ClaimInv (CAF.pushr fixedSample (some 9)).2 ∧
      (CAF.pushr fixedSample (some 9)).2.cap = fixedSample.cap) ∧
    (Inv (CAF.pushl fixedSample (some 9)).2 ∧ ClaimInv (CAF.pushl fixedSample (some 9)).2 ∧
      (CAF.pushl fixedSample (some 9)).2.cap = fixedSample.cap) ∧
    (Inv (CAF.popl fixedSample).2 ∧ ClaimInv (CAF.popl fixedSample).2 ∧ (CAF.popl fixedSample).2.cap = fixedSample.cap) ∧
    (Inv (CAF.popr fixedSample).2 ∧ ClaimInv (CAF.popr fixedSample).2 ∧ (CAF.popr fixedSample).2.cap = fixedSample.cap) ∧
    (Inv (CAF.popld fixedSample none).2 ∧ ClaimInv (CAF.popld fixedSample none).2 ∧
      (CAF.popld fixedSample none).2.cap = fixedSample.cap) ∧
    (Inv (CAF.poprd fixedSample none).2 ∧ ClaimInv (CAF.poprd fixedSample none).2 ∧
      (CAF.poprd fixedSample none).2.cap = fixedSample.cap) ∧
    (Inv (CAF.poplt fixedSample (3 : Int)).2 ∧ ClaimInv (CAF.poplt fixedSample (3 : Int)).2 ∧
      (CAF.poplt fixedSample (3 : Int)).2.cap = fixedSample.cap) ∧
    (Inv (CAF.poprt fixedSample (3 : Int)).2 ∧ ClaimInv (CAF.poprt fixedSample (3 : Int)).2 ∧
      (CAF.poprt fixedSample (3 : Int)).2.cap = fixedSample.cap) ∧
    (Inv (CAF.rotl fixedSample (2 : Int)).2 ∧ ClaimInv (CAF.rotl fixedSample (2 : Int)).2 ∧
      (CAF.rotl fixedSample (2 : Int)).2.cap = fixedSample.cap) ∧
    (Inv (CAF.rotr fixedSample (2 : Int)).2 ∧ ClaimInv (CAF.rotr fixedSample (2 : Int)).2 ∧
      (CAF.rotr fixedSample (2 : Int)).2.cap = fixedSample.cap) ∧
    (Inv (CAF.setItem fixedSample (1 : Int) (some 8)).2 ∧ ClaimInv (CAF.setItem fixedSample (1 : Int) (some 8)).2 ∧
      (CAF.setItem fixedSample (1 : Int) (some 8)).2.cap = fixedSample.cap) ∧
    (Inv (CAF.emptyOp fixedSample) ∧ ClaimInv (CAF.emptyOp fixedSample) ∧ (CAF.emptyOp fixedSample).cap = fixedSample.cap) ∧
    (Inv (CAF.mapCAF fixedSample (fun x => x : Option Nat → Option Nat)) ∧ ClaimInv (CAF.mapCAF fixedSample (fun x => x : Option Nat → Option Nat)) ∧
      (CAF.mapCAF fixedSample (fun x => x : Option Nat → Option Nat)).cap = fixedSample.cap)) :=
  ⟨⟨by decide, by decide⟩,
   c4_invariants wrappedFull fixedSample (some 9) (some 8) none
     (fun x => x : Option Nat → Option Nat) [some 1, none] 1 2 3 9 5
     (by decide) (by decide)⟩

end CircularArray

